import Mathlib

/-!
Verification of the zinc compiler's semantic middle-end and Rust emitter.

This file is a shallow embedding, in Lean, of the pipeline implemented by
`zinc/atlas.py` (reachability Atlas and specializations), `zinc/symbols.py`
(symbol table, type resolution, channel analysis) and `zinc/codegen.py`
(Rust emission), the pipeline wired together by `zinc/main.py`.

Modelling conventions:
* Python dataclass instances that are mutated through shared references
  (`ChannelTypeInfo`, `Symbol`) live in explicit heaps (`List` indexed by
  allocation order); dictionaries binding names to such objects store heap
  indices, so Python aliasing is preserved.
* `SortedDict` / `SortedSet` (from `sortedcontainers`) are association
  lists / lists kept sorted by the insertion helpers below, so iteration
  order matches the Python structures.
* ANTLR parse-tree nodes become the inductive AST below; each node carries
  its source interval (`getSourceInterval`), which the source uses as a
  dictionary key.
* String manipulation helpers are written over `List Char` so that they
  evaluate inside the kernel; they implement exactly the Python string
  operations used by the source.
-/

namespace Zinc

/-- Source intervals, as returned by ANTLR's `getSourceInterval` (the source
uses `(-1, -1)` for builtins, hence `Int`). -/
abbrev Iv := Int × Int

/-! ### Association-list and sorted-container helpers -/

/-- Python `dict` update `d[k] = v`: replace the first binding of `k`, or
append a new binding (Python dicts keep insertion order). -/
def aset [BEq κ] (k : κ) (v : α) : List (κ × α) → List (κ × α)
  | [] => [(k, v)]
  | (k2, v2) :: rest => if k == k2 then (k, v) :: rest else (k2, v2) :: aset k v rest

/-- Lexicographic comparison of code-point lists (Python `str <`). -/
def charsLt : List Char → List Char → Bool
  | [], [] => false
  | [], _ :: _ => true
  | _ :: _, [] => false
  | a :: as, b :: bs =>
    if a.toNat < b.toNat then true
    else if b.toNat < a.toNat then false
    else charsLt as bs

/-- Python string `<`, used for `SortedDict` / `SortedSet` ordering. -/
def strLtB (a b : String) : Bool := charsLt a.data b.data

/-- `SortedDict` assignment `d[k] = v`: replace the binding of `k` or insert
it at its sorted position. -/
def sinsert (k : String) (v : α) : List (String × α) → List (String × α)
  | [] => [(k, v)]
  | (k2, v2) :: rest =>
    if k = k2 then (k, v) :: rest
    else if strLtB k k2 then (k, v) :: (k2, v2) :: rest
    else (k2, v2) :: sinsert k v rest

/-- Update the value bound to an existing `SortedDict` key in place
(`d[k].add(...)` patterns); no-op when the key is absent. -/
def supdate (k : String) (f : α → α) : List (String × α) → List (String × α)
  | [] => []
  | (k2, v2) :: rest =>
    if k = k2 then (k2, f v2) :: rest else (k2, v2) :: supdate k f rest

/-- `SortedSet.add`: insert a string at its sorted position unless present. -/
def ssinsert (x : String) : List String → List String
  | [] => [x]
  | y :: rest =>
    if x = y then y :: rest
    else if strLtB x y then x :: y :: rest
    else y :: ssinsert x rest

/-! ### String helpers (kernel-evaluable counterparts of the Python ops) -/

/-- Python `s.startswith(pre)`. -/
def strStarts (s pre : String) : Bool := pre.data.isPrefixOf s.data

/-- Python `sub in s` for a single character. -/
def strHasChar (s : String) (c : Char) : Bool := s.data.contains c

/-- Worker for `splitLines`. -/
def splitLinesGo : List Char → List Char → List String
  | [], acc => [String.mk acc.reverse]
  | c :: rest, acc =>
    if c = '\n' then String.mk acc.reverse :: splitLinesGo rest []
    else splitLinesGo rest (c :: acc)

/-- Python `s.split("\n")` (the emitter only ever splits on a newline). -/
def splitLines (s : String) : List String := splitLinesGo s.data []

/-- Python `"\n".join(parts)`. -/
def joinLines : List String → String
  | [] => ""
  | [s] => s
  | s :: rest => s ++ "\n" ++ joinLines rest

/-! ### Type system (`zinc/ast/types.py`) -/

/-- `BaseType` from `zinc/ast/types.py`.  `VOID` and `STRUCT` are used by
`zinc/symbols.py` (`BaseType.VOID`, `BaseType.STRUCT`) but absent from the
copy of `types.py` at hand; the spec's type universe (§3) lists `Void` and
`Struct`, so both are modelled here as extra members. -/
inductive BaseType where
  | INTEGER
  | STRING
  | BOOLEAN
  | FLOAT
  | CHANNEL
  | ARRAY
  | UNKNOWN
  | VOID
  | STRUCT
deriving DecidableEq, Repr

/-- `type_to_rust` from `zinc/ast/types.py`; `VOID`/`STRUCT` fall through to
the `mapping.get(base_type, "unknown")` default. -/
def type_to_rust : BaseType → String
  | .INTEGER => "i64"
  | .FLOAT => "f64"
  | .STRING => "String"
  | .BOOLEAN => "bool"
  | .CHANNEL => "chan"
  | .ARRAY => "Vec"
  | .UNKNOWN => "unknown"
  | .VOID => "unknown"
  | .STRUCT => "unknown"

/-- `TypeInfo.promote` from `zinc/ast/types.py`, on the underlying
`BaseType`s (`TypeInfo` is a wrapper holding exactly a `BaseType`). -/
def promote (l r : BaseType) : BaseType :=
  if l = r then l
  else if (l = .INTEGER ∧ r = .FLOAT) ∨ (l = .FLOAT ∧ r = .INTEGER) then .FLOAT
  else .UNKNOWN

/-- Literal tokens.  The lexer only produces integer, float, string and
boolean literal tokens, so the textual shape analysis of `parse_literal`
is embedded as the classification below; the token text is retained for
the emitter (`getText`). -/
inductive Lit where
  | intLit (text : String)
  | floatLit (text : String)
  | strLit (text : String)
  | boolLit (b : Bool)
deriving DecidableEq, Repr

/-- `parse_literal` from `zinc/ast/types.py`, restricted to lexer-shaped
literal tokens (on which it never raises). -/
def parse_literal : Lit → BaseType
  | .intLit _ => .INTEGER
  | .floatLit _ => .FLOAT
  | .strLit _ => .STRING
  | .boolLit _ => .BOOLEAN

/-- `getText` of a literal token. -/
def Lit.text : Lit → String
  | .intLit t => t
  | .floatLit t => t
  | .strLit t => t
  | .boolLit b => if b then "true" else "false"

/-- `ChannelTypeInfo` from `zinc/ast/types.py`. -/
structure ChannelTypeInfo where
  element_type : BaseType := .UNKNOWN
  is_bounded : Bool := false
deriving DecidableEq, Repr

/-- `ChannelTypeInfo.to_rust_sender`. -/
def ChannelTypeInfo.to_rust_sender (c : ChannelTypeInfo) : String :=
  let elem := type_to_rust c.element_type
  if c.is_bounded then "tokio::sync::mpsc::Sender<" ++ elem ++ ">"
  else "tokio::sync::mpsc::UnboundedSender<" ++ elem ++ ">"

/-- `ChannelTypeInfo.to_rust_receiver`. -/
def ChannelTypeInfo.to_rust_receiver (c : ChannelTypeInfo) : String :=
  let elem := type_to_rust c.element_type
  if c.is_bounded then "tokio::sync::mpsc::Receiver<" ++ elem ++ ">"
  else "tokio::sync::mpsc::UnboundedReceiver<" ++ elem ++ ">"

/-- `Atlas._mangle_name` from `zinc/atlas.py`. -/
def mangle_name (name : String) (arg_types : List BaseType) : String :=
  if arg_types = [] then name
  else name ++ "_" ++ String.intercalate "_" (arg_types.map type_to_rust)

/-! ### Parse-tree AST

The ANTLR grammar fragment exercised by the middle-end.  Constructor names
follow the parse-tree context classes.  `arith` covers `AdditiveExpr` and
`MultiplicativeExpr` (the two visitor methods are textually identical),
`cmpE` covers `RelationalExpr`/`EqualityExpr`, `logicalE` covers
`LogicalAndExpr`/`LogicalOrExpr`.  Struct instantiation, `self` and string
interpolation are outside the modelled fragment (no claim mentions them). -/

mutual
inductive Expr where
  | lit (iv : Iv) (l : Lit)
  | ident (iv : Iv) (name : String)
  | arrayLit (iv : Iv) (elems : Exprs)
  | arith (iv : Iv) (op : String) (l r : Expr)
  | cmpE (iv : Iv) (op : String) (l r : Expr)
  | logicalE (iv : Iv) (op : String) (l r : Expr)
  | unary (iv : Iv) (op : String) (e : Expr)
  | paren (iv : Iv) (e : Expr)
  | rangeE (iv : Iv) (op : String) (l r : Expr)
  | indexE (iv : Iv) (arr idx : Expr)
  | memberAccess (iv : Iv) (target : Expr) (field : String)
  | call (iv : Iv) (callee : Expr) (args : Exprs)
  | recv (iv : Iv) (chan : Expr)
deriving DecidableEq, Repr
inductive Exprs where
  | nil
  | cons (e : Expr) (es : Exprs)
deriving DecidableEq, Repr
end

/-- `assignmentTarget`: an identifier, or another target form (member or
index access), of which only `getText()` is consumed by the emitter. -/
inductive Target where
  | identT (iv : Iv) (name : String)
  | otherT (iv : Iv) (text : String)
deriving DecidableEq, Repr

mutual
inductive Stmt where
  | assign (target : Target) (e : Expr)
  | exprStmt (e : Expr)
  | send (iv : Iv) (channel : String) (value : Expr)
  | spawnStmt (iv : Iv) (fn : Expr) (args : Exprs)
  | retE (e : Expr)
  | retNone
  | breakS
  | continueS
  | ifS (branches : IfBranches) (els : OBlock)
  | forS (ivVar : Iv) (var : String) (iter : Expr) (body : Stmts)
  | whileS (cond : Expr) (body : Stmts)
  | loopS (body : Stmts)
deriving DecidableEq, Repr
inductive Stmts where
  | nil
  | cons (s : Stmt) (ss : Stmts)
deriving DecidableEq, Repr
inductive IfBranches where
  | nil
  | cons (cond : Expr) (body : Stmts) (rest : IfBranches)
deriving DecidableEq, Repr
inductive OBlock where
  | noneB
  | someB (b : Stmts)
deriving DecidableEq, Repr
end

/-- A function parameter: name and source interval of the parameter node. -/
structure Param where
  name : String
  iv : Iv
deriving DecidableEq, Repr

/-- A `functionDeclaration` parse-tree node. -/
structure FnDef where
  name : String
  params : List Param
  body : Stmts
deriving DecidableEq, Repr

/-- Top-level declarations; struct declarations carry their methods, which
`visitChildren` reaches as nested `functionDeclaration` nodes. -/
inductive Decl where
  | funcDecl (fd : FnDef)
  | structDecl (name : String) (methods : List FnDef)
  | constDecl (name : String) (e : Expr)
deriving DecidableEq, Repr

/-- A parse tree for a whole program. -/
abbrev Program := List Decl

/-! ### Atlas (`zinc/atlas.py`) -/

/-- `FunctionInstance`.  `arg_channel_infos` maps an argument index to the
heap id of a shared `ChannelTypeInfo` (the Python field holds an aliased
reference into the analyzer's `_channel_infos`). -/
structure FnInst where
  name : String
  mangled_name : String
  ctx : FnDef
  arg_types : List BaseType
  return_type : BaseType := .VOID
  is_async : Bool := false
  arg_channel_infos : List (Nat × Nat) := []
deriving DecidableEq, Repr

/-- `Atlas`.  The struct/const components and the `main` back-reference are
omitted: no claim concerns them and no modelled code path reads them.  The
three retained maps are `SortedDict`s. -/
structure Atlas where
  functions : List (String × FnInst) := []
  calls : List (String × List String) := []
  function_defs : List (String × FnDef) := []
deriving DecidableEq, Repr

/-- `Atlas.add_specialization`. -/
def add_specialization (a : Atlas) (name : String) (arg_types : List BaseType)
    (ctx : FnDef) (caller_mangled : Option String) : String × Atlas :=
  let mangled := mangle_name name arg_types
  let a :=
    if (a.functions.lookup mangled).isNone then
      { a with
        functions := sinsert mangled
          { name := name, mangled_name := mangled, ctx := ctx, arg_types := arg_types }
          a.functions,
        calls := sinsert mangled [] a.calls }
    else a
  let a :=
    match caller_mangled with
    | Option.none => a
    | Option.some c =>
      if (a.calls.lookup c).isSome then { a with calls := supdate c (ssinsert mangled) a.calls }
      else a
  (mangled, a)

/-- Mutable state of the depth-first walk inside `topological_order`. -/
structure TopoSt where
  visited : List String := []
  result : List String := []
deriving DecidableEq, Repr

/-- The inner `dfs` of `Atlas.topological_order`.  The Python recursion
terminates because every recursive call first marks an unvisited key of
`functions` as visited, so its depth is at most `functions.length`; the
fuel argument makes that bound explicit and is instantiated sufficiently
at the call site. -/
def topoDfs (a : Atlas) : Nat → String → TopoSt → TopoSt
  | 0, _, s => s
  | fuel + 1, name, s =>
    if name ∈ s.visited then s
    else if (a.functions.lookup name).isNone then s
    else
      let s1 : TopoSt := { s with visited := name :: s.visited }
      let callees := (a.calls.lookup name).getD []
      let s2 := callees.foldl
        (fun t c => if (a.functions.lookup c).isSome then topoDfs a fuel c t else t) s1
      { s2 with result := s2.result ++ [name] }

/-- `Atlas.topological_order`: depth-first post-order over `calls`, started
from every function in (sorted) key order. -/
def topological_order (a : Atlas) : List String :=
  let keys := a.functions.map Prod.fst
  (keys.foldl (fun s k => topoDfs a (keys.length + 1) k s) {}).result

/-! ### AtlasBuilder (`zinc/atlas.py`) -/

/-- The definition-collection state of `AtlasBuilder` (first sweep). -/
structure Builder where
  function_defs : List (String × FnDef) := []
  struct_defs : List (String × List FnDef) := []
  const_defs : List (String × Expr) := []
  main_ctx : Option FnDef := none
deriving Repr

/-- `AtlasBuilder.visitFunctionDeclaration`. -/
def visitFunctionDeclaration (b : Builder) (fd : FnDef) : Builder :=
  let b := { b with function_defs := sinsert fd.name fd b.function_defs }
  if fd.name = "main" then { b with main_ctx := some fd } else b

/-- The first sweep over one top-level declaration.  `visitChildren` of a
struct declaration reaches the nested method `functionDeclaration` nodes,
so methods are also recorded (and can set `main_ctx`). -/
def collectDecl (b : Builder) : Decl → Builder
  | .funcDecl fd => visitFunctionDeclaration b fd
  | .structDecl name methods =>
    let b := { b with struct_defs := sinsert name methods b.struct_defs }
    methods.foldl visitFunctionDeclaration b
  | .constDecl name e => { b with const_defs := sinsert name e b.const_defs }

/-- The first sweep over the parse tree. -/
def collect (p : Program) : Builder := p.foldl collectDecl {}

/-! Workers of `_walk_for_references`: callee names discovered in a node, in
walk order.  They cover the function-call and spawn patterns; the
struct-usage and const-usage branches record into maps this model omits. -/

mutual
def wfrExpr : Expr → List String
  | .lit _ _ => []
  | .ident _ _ => []
  | .arrayLit _ es => wfrExprs es
  | .arith _ _ l r => wfrExpr l ++ wfrExpr r
  | .cmpE _ _ l r => wfrExpr l ++ wfrExpr r
  | .logicalE _ _ l r => wfrExpr l ++ wfrExpr r
  | .unary _ _ e => wfrExpr e
  | .paren _ e => wfrExpr e
  | .rangeE _ _ l r => wfrExpr l ++ wfrExpr r
  | .indexE _ a i => wfrExpr a ++ wfrExpr i
  | .memberAccess _ t _ => wfrExpr t
  | .call _ callee args =>
    (match callee with
     | .ident _ f => if f = "print" ∨ f = "chan" then [] else [f]
     | _ => []) ++ wfrExpr callee ++ wfrExprs args
  | .recv _ c => wfrExpr c
def wfrExprs : Exprs → List String
  | .nil => []
  | .cons e es => wfrExpr e ++ wfrExprs es
def wfrStmt : Stmt → List String
  | .assign _ e => wfrExpr e
  | .exprStmt e => wfrExpr e
  | .send _ _ v => wfrExpr v
  | .spawnStmt _ fn args =>
    (match fn with
     | .ident _ f => if f = "print" ∨ f = "chan" then [] else [f]
     | _ => []) ++ wfrExpr fn ++ wfrExprs args
  | .retE e => wfrExpr e
  | .retNone => []
  | .breakS => []
  | .continueS => []
  | .ifS branches els => wfrBranches branches ++ wfrOBlock els
  | .forS _ _ iter body => wfrExpr iter ++ wfrStmts body
  | .whileS cond body => wfrExpr cond ++ wfrStmts body
  | .loopS body => wfrStmts body
def wfrStmts : Stmts → List String
  | .nil => []
  | .cons s ss => wfrStmt s ++ wfrStmts ss
def wfrBranches : IfBranches → List String
  | .nil => []
  | .cons c b rest => wfrExpr c ++ wfrStmts b ++ wfrBranches rest
def wfrOBlock : OBlock → List String
  | .noneB => []
  | .someB b => wfrStmts b
end

/-- The worklist of `AtlasBuilder.build`.  `worklist.pop()` takes the last
element.  The Python loop terminates because each pop either shrinks the
worklist or moves a name into `visited`, and items are only appended for
unvisited keys of `function_defs`; the fuel bound at the call site covers
the maximal number of iterations. -/
def buildLoop (b : Builder) (mainFd : FnDef) :
    Nat → List String → List String → List (String × List String) →
    List (String × List String)
  | 0, _, _, calls => calls
  | fuel + 1, worklist, visited, calls =>
    match worklist.getLast? with
    | Option.none => calls
    | Option.some name =>
      let rest := worklist.dropLast
      if name ∈ visited then buildLoop b mainFd fuel rest visited calls
      else
        let visited := name :: visited
        let fctx? := if name = "main" then some mainFd else b.function_defs.lookup name
        match fctx? with
        | Option.none => buildLoop b mainFd fuel rest visited calls
        | Option.some fd =>
          let found := wfrStmts fd.body
          let cset := found.foldl (fun s c => ssinsert c s) []
          let calls := sinsert name cset calls
          let newItems := cset.filter
            (fun c => !(visited.contains c) && (b.function_defs.lookup c).isSome)
          buildLoop b mainFd fuel (rest ++ newItems) visited calls

/-- `AtlasBuilder.build`, composed with the first sweep: fails exactly when
no `functionDeclaration` named `main` was collected; otherwise creates the
`main` `FunctionInstance` and runs the reachability worklist. -/
def buildAtlas (p : Program) : Except String Atlas :=
  let b := collect p
  match b.main_ctx with
  | Option.none => .error "No main() function found"
  | Option.some mainFd =>
    let mainInst : FnInst := { name := "main", mangled_name := "main", ctx := mainFd, arg_types := [] }
    let fuel := (b.function_defs.length + 2) * (b.function_defs.length + 2)
    let calls := buildLoop b mainFd fuel ["main"] [] []
    .ok { functions := [("main", mainInst)], calls := calls, function_defs := b.function_defs }

/-! ### Symbol table (`zinc/symbols.py`) -/

/-- `SymbolKind`. -/
inductive SymbolKind where
  | VARIABLE
  | PARAMETER
  | CONST
  | TEMPORARY
  | FUNCTION
  | BUILTIN
  | STRUCT
  | LITERAL
deriving DecidableEq, Repr

/-- `Symbol`.  Instances are mutated through shared references in Python
(`is_mutated`, `element_type`), so they live in a heap below. -/
structure Symbol where
  id : Option String
  unique_name : String
  kind : SymbolKind
  resolved_type : BaseType
  source_interval : Iv
  is_mutated : Bool := false
  is_shadow : Bool := false
  element_type : Option BaseType := none
deriving DecidableEq, Repr

instance : Inhabited Symbol :=
  ⟨{ id := none, unique_name := "", kind := .TEMPORARY, resolved_type := .UNKNOWN,
     source_interval := (0, 0) }⟩

instance : Inhabited ChannelTypeInfo := ⟨{}⟩

/-- The combined mutable state of `SymbolTable` and `SymbolTableVisitor`.
`symHeap` / `chanHeap` hold the `Symbol` / `ChannelTypeInfo` objects by
allocation order; name maps store heap indices, preserving the aliasing of
the Python references.  `spawnLog` is ghost instrumentation with no Python
counterpart: it records the mangled name every time `visitSpawnStatement`
performs its `is_async = True` assignment, and is read by no definition. -/
structure St where
  symHeap : List Symbol := []
  symbols : List Nat := []
  by_interval : List ((String × Iv) × Nat) := []
  scope_stack : List (List (String × Nat)) := [[]]
  temp_counter : Nat := 0
  scope_path : List String := []
  function_scope : String := ""
  block_counters : List (String × Nat) := []
  current_function : Option String := none
  current_return_type : BaseType := .VOID
  specialization_map : List (Iv × String) := []
  chanHeap : List ChannelTypeInfo := []
  channel_infos : List (String × Nat) := []
  atlas : Atlas := {}
  spawnLog : List String := []
deriving DecidableEq, Repr

/-- Read a `Symbol` object from the heap. -/
def symGet (st : St) (sid : Nat) : Symbol := st.symHeap.getD sid default

/-- Mutate a `Symbol` object on the heap. -/
def symSet (st : St) (sid : Nat) (f : Symbol → Symbol) : St :=
  { st with symHeap := st.symHeap.set sid (f (symGet st sid)) }

/-- Read a `ChannelTypeInfo` object from the heap. -/
def chanGet (st : St) (cid : Nat) : ChannelTypeInfo := st.chanHeap.getD cid default

/-- Mutate a `ChannelTypeInfo` object on the heap. -/
def chanSet (st : St) (cid : Nat) (f : ChannelTypeInfo → ChannelTypeInfo) : St :=
  { st with chanHeap := st.chanHeap.set cid (f (chanGet st cid)) }

/-- `SymbolTable.current_scope`. -/
def current_scope (st : St) : String :=
  if st.scope_path = [] then "global" else String.intercalate "." st.scope_path

/-- `SymbolTable._interval_key`.  The source formats the pair as the string
`f"{scope}:({a}, {b})"`; scopes contain no colon, so the pair itself is an
equivalent key. -/
def interval_key (st : St) (iv : Iv) : String × Iv := (st.function_scope, iv)

/-- `SymbolTable.enter_scope` (the stack top is at the head here, where
Python appends at the end). -/
def enter_scope (name : String) (st : St) : St :=
  let path := st.scope_path ++ [name]
  { st with scope_path := path, scope_stack := [] :: st.scope_stack,
            function_scope := if path.length = 1 then name else st.function_scope }

/-- `SymbolTable.exit_scope`. -/
def exit_scope (st : St) : St :=
  let path := st.scope_path.dropLast
  { st with scope_path := path, scope_stack := st.scope_stack.tail,
            function_scope := if path = [] then "" else st.function_scope }

/-- `SymbolTable.define`.  Returns the heap id of the new symbol. -/
def define (id : String) (kind : SymbolKind) (resolved_type : BaseType) (iv : Iv)
    (is_shadow : Bool) (st : St) : Nat × St :=
  let type_suffix := type_to_rust resolved_type
  let base_name := if st.scope_path ≠ [] then current_scope st ++ "." ++ id else id
  let unique_name := base_name ++ "/" ++ type_suffix
  let sym : Symbol := { id := some id, unique_name := unique_name, kind := kind,
                        resolved_type := resolved_type, source_interval := iv,
                        is_shadow := is_shadow }
  let sid := st.symHeap.length
  let stack :=
    match st.scope_stack with
    | [] => [[(id, sid)]]
    | top :: rest => aset id sid top :: rest
  (sid, { st with
            symHeap := st.symHeap ++ [sym],
            symbols := st.symbols ++ [sid],
            by_interval := aset (interval_key st iv) sid st.by_interval,
            scope_stack := stack })

/-- `SymbolTable.define_temp`. -/
def define_temp (resolved_type : BaseType) (iv : Iv) (kind : SymbolKind) (st : St) :
    Nat × St :=
  let unique_name := "tmp_" ++ toString st.temp_counter
  let sym : Symbol := { id := none, unique_name := unique_name, kind := kind,
                        resolved_type := resolved_type, source_interval := iv }
  let sid := st.symHeap.length
  (sid, { st with
            temp_counter := st.temp_counter + 1,
            symHeap := st.symHeap ++ [sym],
            symbols := st.symbols ++ [sid],
            by_interval := aset (interval_key st iv) sid st.by_interval })

/-- `SymbolTable.lookup_by_id` worker (scopes from innermost outward). -/
def lookup_scopes (id : String) : List (List (String × Nat)) → Option Nat
  | [] => none
  | scope :: rest =>
    match scope.lookup id with
    | some sid => some sid
    | none => lookup_scopes id rest

/-- `SymbolTable.lookup_by_id`. -/
def lookup_by_id (id : String) (st : St) : Option Nat := lookup_scopes id st.scope_stack

/-- `SymbolTable.lookup_by_interval`. -/
def lookup_by_interval (iv : Iv) (function_scope : Option String) (st : St) : Option Nat :=
  let scope := function_scope.getD st.function_scope
  st.by_interval.lookup (scope, iv)

/-- Modelled from the spec: `is_mutating_method`, imported by
`zinc/symbols.py` from `zinc/ast/types.py`, is missing from the copy of
`types.py` at hand.  Spec §4.5 names the relevant trigger: the variable is
the receiver of an append-style growing method on an array. -/
def is_mutating_method (t : BaseType) (method : String) : Bool :=
  t = .ARRAY && method = "push"

/-- `SymbolTableVisitor._is_empty_array_literal`. -/
def is_empty_array_literal : Expr → Bool
  | .arrayLit _ .nil => true
  | _ => false

/-- `SymbolTableVisitor._next_block_name`. -/
def next_block_name (p : String) (st : St) : String × St :=
  let count := (st.block_counters.lookup p).getD 0
  (p ++ "_" ++ toString count, { st with block_counters := aset p (count + 1) st.block_counters })

/-- `SymbolTableVisitor._register_builtins`. -/
def register_builtins (st : St) : St :=
  let (_, st) := define "print" .BUILTIN .VOID (-1, -1) false st
  let (_, st) := define "chan" .BUILTIN .CHANNEL (-1, -1) false st
  st

/-- Allocate the fresh `ChannelTypeInfo(element_type=UNKNOWN)` of the
`chan()`-assignment branch of `visitVariableAssignment` and bind it. -/
def allocChan (var_name : String) (st : St) : St :=
  let cid := st.chanHeap.length
  { st with chanHeap := st.chanHeap ++ [{ element_type := .UNKNOWN }],
            channel_infos := aset var_name cid st.channel_infos }

/-- The array-element tracking of the method-call block of
`visitFunctionCallExpr`: on a `push` with arguments into an array
receiver whose element type is still unset, record the first argument
type. -/
def pushBookkeeping (method_name : String) (arg_types : List BaseType) (sid : Nat)
    (st : St) : St :=
  if method_name = "push" ∧ (symGet st sid).resolved_type = .ARRAY ∧ arg_types ≠ [] then
    if (symGet st sid).element_type = none then
      symSet st sid (fun s => { s with element_type := some (arg_types.headD .UNKNOWN) })
    else st
  else st

/-- The method-call block of `visitFunctionCallExpr`: for a call whose
callee is a member access on a simple identifier, mark the receiver
mutated when the method is a mutating one, then apply the `push`
element-type tracking. -/
def methodBookkeeping (callee : Expr) (arg_types : List BaseType) (st : St) : St :=
  match callee with
  | .memberAccess _ (.ident _ var_name) method_name =>
    (match lookup_by_id var_name st with
     | some sid =>
       pushBookkeeping method_name arg_types sid
         (if is_mutating_method (symGet st sid).resolved_type method_name then
            symSet st sid (fun s => { s with is_mutated := true })
          else st)
     | none => st)
  | _ => st

/-- The `chan()`-detection block at the top of the identifier branch of
`visitVariableAssignment`: when the assigned expression is a call of the
builtin `chan`, create a fresh channel info unless one with a concrete
element type is already recorded under this variable name. -/
def chanBookkeeping (expr_type : BaseType) (e : Expr) (var_name : String) (st : St) : St :=
  if expr_type = .CHANNEL then
    match e with
    | .call _ (.ident _ "chan") _ =>
      (match st.channel_infos.lookup var_name with
       | some cid =>
         if (chanGet st cid).element_type = .UNKNOWN then allocChan var_name st else st
       | none => allocChan var_name st)
    | _ => st
  else st

/-! ### SymbolTableVisitor (`zinc/symbols.py`)

One mutually recursive function per group of visitor methods; each match
arm names the Python method it translates. -/

mutual

/-- Expression visitors of `SymbolTableVisitor` (they return the resolved
`BaseType` and thread the state). -/
def svExpr (e : Expr) (st : St) : BaseType × St :=
  match e with
  | .lit iv l =>
    -- visitLiteral
    let bt := parse_literal l
    let (_, st) := define_temp bt iv .LITERAL st
    (bt, st)
  | .ident iv name =>
    -- visitPrimaryExpression, IDENTIFIER branch
    match lookup_by_id name st with
    | some sid =>
      let t := (symGet st sid).resolved_type
      let (_, st) := define_temp t iv .TEMPORARY st
      (t, st)
    | none =>
      let (_, st) := define_temp .UNKNOWN iv .TEMPORARY st
      (.UNKNOWN, st)
  | .arrayLit iv es =>
    -- visitArrayLiteral
    let (_, st) := svExprs es st
    let (_, st) := define_temp .ARRAY iv .TEMPORARY st
    (.ARRAY, st)
  | .arith iv _ l r =>
    -- visitAdditiveExpr / visitMultiplicativeExpr
    let (lt, st) := svExpr l st
    let (rt, st) := svExpr r st
    let t := promote lt rt
    let (_, st) := define_temp t iv .TEMPORARY st
    (t, st)
  | .cmpE iv _ l r =>
    -- visitRelationalExpr / visitEqualityExpr
    let (_, st) := svExpr l st
    let (_, st) := svExpr r st
    let (_, st) := define_temp .BOOLEAN iv .TEMPORARY st
    (.BOOLEAN, st)
  | .logicalE iv _ l r =>
    -- visitLogicalAndExpr / visitLogicalOrExpr
    let (_, st) := svExpr l st
    let (_, st) := svExpr r st
    let (_, st) := define_temp .BOOLEAN iv .TEMPORARY st
    (.BOOLEAN, st)
  | .unary iv op e1 =>
    -- visitUnaryExpr
    let (ot, st) := svExpr e1 st
    let t := if op = "-" then ot else BaseType.BOOLEAN
    let (_, st) := define_temp t iv .TEMPORARY st
    (t, st)
  | .paren iv e1 =>
    -- visitParenExpr
    let (t, st) := svExpr e1 st
    let (_, st) := define_temp t iv .TEMPORARY st
    (t, st)
  | .rangeE iv _ l r =>
    -- visitRangeExpr
    let (_, st) := svExpr l st
    let (_, st) := svExpr r st
    let (_, st) := define_temp .INTEGER iv .TEMPORARY st
    (.INTEGER, st)
  | .indexE iv a i =>
    -- visitIndexAccessExpr
    let (_, st) := svExpr a st
    let (_, st) := svExpr i st
    let (_, st) := define_temp .UNKNOWN iv .TEMPORARY st
    (.UNKNOWN, st)
  | .memberAccess iv t _ =>
    -- visitMemberAccessExpr
    let (_, st) := svExpr t st
    let (_, st) := define_temp .UNKNOWN iv .TEMPORARY st
    (.UNKNOWN, st)
  | .call iv callee args =>
    -- visitFunctionCallExpr
    let (_, st) := svExpr callee st
    let (arg_types, st) := svExprs args st
    -- method-call branch (receiver mutation and array push element tracking)
    let st := methodBookkeeping callee arg_types st
    -- specialization branch for simple-identifier callees
    match callee with
    | .ident _ func_name =>
      let spec :=
        if func_name = "print" ∨ func_name = "chan" then none
        else
          match st.atlas.function_defs.lookup func_name with
          | some func_def =>
            if arg_types ≠ [] ∧ BaseType.UNKNOWN ∉ arg_types then some func_def else none
          | none => none
      match spec with
      | some func_def =>
        let (mangled, atlas) :=
          add_specialization st.atlas func_name arg_types func_def st.current_function
        let st := { st with
                      atlas := atlas,
                      specialization_map := aset iv mangled st.specialization_map }
        (match st.atlas.functions.lookup mangled with
         | some func_instance =>
           if func_instance.return_type ≠ .VOID then
             let (_, st) := define_temp func_instance.return_type iv .TEMPORARY st
             (func_instance.return_type, st)
           else
             svCallFallback iv func_name st
         | none => svCallFallback iv func_name st)
      | none => svCallFallback iv func_name st
    | _ =>
      let (_, st) := define_temp .UNKNOWN iv .TEMPORARY st
      (.UNKNOWN, st)
  | .recv iv ch =>
    -- visitChannelReceiveExpr
    let (_, st) := svExpr ch st
    match ch with
    | .ident _ channel_name =>
      (match st.channel_infos.lookup channel_name with
       | some cid =>
         let elem := (chanGet st cid).element_type
         let (_, st) := define_temp elem iv .TEMPORARY st
         (elem, st)
       | none =>
         let (_, st) := define_temp .UNKNOWN iv .TEMPORARY st
         (.UNKNOWN, st))
    | _ =>
      let (_, st) := define_temp .UNKNOWN iv .TEMPORARY st
      (.UNKNOWN, st)

/-- Tail of `visitFunctionCallExpr`: the `func_symbol` lookup and the final
`UNKNOWN` fallthrough. -/
def svCallFallback (iv : Iv) (func_name : String) (st : St) : BaseType × St :=
  match lookup_by_id func_name st with
  | some fsid =>
    let t := (symGet st fsid).resolved_type
    let (_, st) := define_temp t iv .TEMPORARY st
    (t, st)
  | none =>
    let (_, st) := define_temp .UNKNOWN iv .TEMPORARY st
    (.UNKNOWN, st)

/-- Argument-list visitor: resolved types in order (`visitFunctionCallExpr`
argument loop). -/
def svExprs (es : Exprs) (st : St) : List BaseType × St :=
  match es with
  | .nil => ([], st)
  | .cons e rest =>
    let (t, st) := svExpr e st
    let (ts, st) := svExprs rest st
    (t :: ts, st)

/-- The argument loop of `visitSpawnStatement`: resolved types plus the
`arg_channel_infos` entries for channel-typed identifier arguments. -/
def svSpawnArgs (es : Exprs) (i : Nat) (st : St) : List BaseType × List (Nat × Nat) × St :=
  match es with
  | .nil => ([], [], st)
  | .cons e rest =>
    let (t, st) := svExpr e st
    let chanEntry : List (Nat × Nat) :=
      if t = .CHANNEL then
        match e with
        | .ident _ chan_var =>
          (match st.channel_infos.lookup chan_var with
           | some cid => [(i, cid)]
           | none => [])
        | _ => []
      else []
    let (ts, cs, st) := svSpawnArgs rest (i + 1) st
    (t :: ts, chanEntry ++ cs, st)

/-- Statement visitors of `SymbolTableVisitor`. -/
def svStmt (s : Stmt) (st : St) : St :=
  match s with
  | .assign target e =>
    -- visitVariableAssignment
    let (expr_type, st) := svExpr e st
    match target with
    | .identT tiv var_name =>
      -- chan() detection and channel-info creation
      let st := chanBookkeeping expr_type e var_name st
      (match lookup_by_id var_name st with
       | none =>
         -- first assignment: create new symbol
         (define var_name .VARIABLE expr_type tiv false st).2
       | some sid =>
         if (symGet st sid).resolved_type ≠ expr_type then
           -- type change: create shadow symbol
           (define var_name .VARIABLE expr_type tiv true st).2
         else if expr_type = .ARRAY ∧ (symGet st sid).element_type ≠ none ∧
                  is_empty_array_literal e then
           -- empty array reassigned over an array with a known element type
           (define var_name .VARIABLE expr_type tiv true st).2
         else
           -- same-type reassignment: mark original as mutated
           let st := symSet st sid (fun sym => { sym with is_mutated := true })
           (define_temp expr_type tiv .TEMPORARY st).2)
    | .otherT tiv _ =>
      (define_temp expr_type tiv .TEMPORARY st).2
  | .exprStmt e =>
    -- visitExpressionStatement
    (svExpr e st).2
  | .send _ channel_name value =>
    -- visitChannelSendStatement
    let (value_type, st) := svExpr value st
    (match st.channel_infos.lookup channel_name with
     | some cid =>
       if (chanGet st cid).element_type = .UNKNOWN then
         chanSet st cid (fun c => { c with element_type := value_type })
       else st
     | none => st)
  | .spawnStmt iv fn args =>
    -- visitSpawnStatement
    (match fn with
     | .ident _ func_name =>
       let (arg_types, arg_channel_infos, st) := svSpawnArgs args 0 st
       if func_name = "print" ∨ func_name = "chan" then st
       else
         (match st.atlas.function_defs.lookup func_name with
          | some func_def =>
            if arg_types ≠ [] then
              let (mangled, atlas) :=
                add_specialization st.atlas func_name arg_types func_def st.current_function
              { st with
                  atlas := { atlas with
                               functions := supdate mangled
                                 (fun i => { i with is_async := true,
                                                    arg_channel_infos := arg_channel_infos })
                                 atlas.functions },
                  specialization_map := aset iv mangled st.specialization_map,
                  spawnLog := st.spawnLog ++ [mangled] }
            else st
          | none => st)
     | _ => st)
  | .retE e =>
    -- visitReturnStatement (first return statement wins)
    let (t, st) := svExpr e st
    if st.current_return_type = .VOID then { st with current_return_type := t } else st
  | .retNone => st
  | .breakS => st
  | .continueS => st
  | .ifS branches els =>
    -- visitIfStatement: all condition expressions first, then the blocks
    let st := svIfConds branches st
    let st := svIfBlocks branches st
    (match els with
     | .noneB => st
     | .someB b =>
       let (bn, st) := next_block_name "if" st
       let st := enter_scope bn st
       let st := svStmts b st
       exit_scope st)
  | .forS ivVar var iter body =>
    -- visitForStatement
    let (iterable_type, st) := svExpr iter st
    let (bn, st) := next_block_name "for" st
    let st := enter_scope bn st
    let var_type := if iterable_type = .INTEGER then BaseType.INTEGER else BaseType.UNKNOWN
    let (_, st) := define var .VARIABLE var_type ivVar false st
    let st := svStmts body st
    exit_scope st
  | .whileS cond body =>
    -- visitWhileStatement
    let (_, st) := svExpr cond st
    let (bn, st) := next_block_name "while" st
    let st := enter_scope bn st
    let st := svStmts body st
    exit_scope st
  | .loopS body =>
    -- visitLoopStatement
    let (bn, st) := next_block_name "loop" st
    let st := enter_scope bn st
    let st := svStmts body st
    exit_scope st

/-- `visitBlock`. -/
def svStmts (ss : Stmts) (st : St) : St :=
  match ss with
  | .nil => st
  | .cons s rest => svStmts rest (svStmt s st)

/-- The condition loop of `visitIfStatement`. -/
def svIfConds (bs : IfBranches) (st : St) : St :=
  match bs with
  | .nil => st
  | .cons c _ rest => svIfConds rest (svExpr c st).2

/-- The block loop of `visitIfStatement`. -/
def svIfBlocks (bs : IfBranches) (st : St) : St :=
  match bs with
  | .nil => st
  | .cons _ b rest =>
    let (bn, st) := next_block_name "if" st
    let st := enter_scope bn st
    let st := svStmts b st
    let st := exit_scope st
    svIfBlocks rest st

end

/-- The parameter loop of `_resolve_function`. -/
def defineParams (func : FnInst) : List Param → Nat → St → St
  | [], _, st => st
  | p :: rest, i, st =>
    let param_type := func.arg_types.getD i .UNKNOWN
    let (_, st) := define p.name .PARAMETER param_type p.iv false st
    let st :=
      if param_type = .CHANNEL then
        match func.arg_channel_infos.lookup i with
        | some cid => { st with channel_infos := aset p.name cid st.channel_infos }
        | none => st
      else st
    defineParams func rest (i + 1) st

/-- `SymbolTableVisitor._resolve_function`, keyed by the mangled name (the
Python method receives the shared `FunctionInstance` object). -/
def resolve_function (mangled : String) (st : St) : St :=
  match st.atlas.functions.lookup mangled with
  | none => st
  | some func =>
    let st := { st with block_counters := [], current_function := some mangled,
                        current_return_type := .VOID }
    let st := enter_scope mangled st
    let st := defineParams func func.ctx.params 0 st
    let st := svStmts func.ctx.body st
    let st := { st with
                  atlas := { st.atlas with
                               functions := supdate mangled
                                 (fun i => { i with return_type := st.current_return_type })
                                 st.atlas.functions } }
    let st := exit_scope st
    { st with current_function := none }

/-- The discovery sweep of `resolve` (phase 1): repeatedly walk the current
specializations in key order, resolving each at most once, until a sweep
finds no new work.  Each sweep that continues has processed at least one
new mangled name, which bounds the iteration count for any terminating
run; the fuel makes the bound explicit. -/
def phase1 : Nat → List String → St → St
  | 0, _, st => st
  | fuel + 1, processed, st =>
    let keys := st.atlas.functions.map Prod.fst
    let step := keys.foldl
      (fun (acc : Bool × List String × St) k =>
        let (nw, pr, st) := acc
        if k ∈ pr then (nw, pr, st)
        else (true, k :: pr, resolve_function k st))
      (false, processed, st)
    if step.1 then phase1 fuel step.2.1 step.2.2 else step.2.2

/-- `SymbolTableVisitor.resolve`.  The constant-resolution and struct
analysis loops iterate over `atlas.consts` / `atlas.structs`, which are
empty in this model.  Phase 2 re-resolves every specialization in
callee-first topological order. -/
def resolve (fuel : Nat) (st : St) : St :=
  let st := register_builtins st
  let st := phase1 fuel [] st
  let order := topological_order st.atlas
  order.foldl (fun st m => resolve_function m st) st

/-- `SymbolTableVisitor.__init__` composed with its `atlas` argument. -/
def initSt (a : Atlas) : St := { atlas := a }

/-! ### Code generation (`zinc/codegen.py`) -/

/-- Opening / closing brace characters (kept out of string literals). -/
def lbrace : Char := Char.ofNat 123

/-- Closing brace character. -/
def rbrace : Char := Char.ofNat 125

/-- Python `s.endswith(suf)`. -/
def strEnds (s suf : String) : Bool := suf.data.isSuffixOf s.data

/-- Python `"::" in s`. -/
def hasDoubleColon : List Char → Bool
  | [] => false
  | ':' :: ':' :: _ => true
  | _ :: rest => hasDoubleColon rest

/-- Python `sep.join(parts)`. -/
def joinSep (sep : String) : List String → String
  | [] => ""
  | [s] => s
  | s :: rest => s ++ sep ++ joinSep sep rest

/-- Worker of `findInterps`: single pass, the second argument buffers an
open brace group (`none` when outside a group). -/
def findInterpsGo : List Char → Option (List Char) → List String
  | [], _ => []
  | c :: rest, none =>
    if c = lbrace then findInterpsGo rest (some []) else findInterpsGo rest none
  | c :: rest, some acc =>
    if c = rbrace then
      (if acc = [] then findInterpsGo rest none
       else String.mk acc.reverse :: findInterpsGo rest none)
    else findInterpsGo rest (some (c :: acc))

/-- The `re.findall` of the brace-interpolation pattern (a non-empty group
between an opening and a closing brace). -/
def findInterps (cs : List Char) : List String := findInterpsGo cs none

/-- Worker of `subInterps`: each closed brace group becomes an empty brace
pair (for an empty group the braces are equally left in place). -/
def subInterpsGo : List Char → Option (List Char) → List Char
  | [], none => []
  | [], some acc => lbrace :: acc.reverse
  | c :: rest, none =>
    if c = lbrace then subInterpsGo rest (some []) else c :: subInterpsGo rest none
  | c :: rest, some acc =>
    if c = rbrace then lbrace :: rbrace :: subInterpsGo rest none
    else subInterpsGo rest (some (c :: acc))

/-- The `re.sub` of the brace-interpolation pattern with an empty pair. -/
def subInterps (cs : List Char) : List Char := subInterpsGo cs none

/-- `CodeGenVisitor._render_interpolated_string`. -/
def render_interpolated_string (text : String) : String :=
  let inner := String.mk ((text.data.drop 1).dropLast)
  let interpolations := findInterps inner.data
  if interpolations = [] then text
  else
    "format!(\"" ++ String.mk (subInterps inner.data) ++ "\", " ++
      joinSep ", " interpolations ++ ")"

/-- `CodeGenVisitor._render_print_call`. -/
def render_print_call (args : List String) : String :=
  match args with
  | [] => "println!()"
  | arg :: _ =>
    if strStarts arg "format!(" then
      "println!(" ++ String.mk ((arg.data.drop 8).dropLast) ++ ")"
    else if strStarts arg "\"" then
      let inner := String.mk ((arg.data.drop 1).dropLast)
      let interpolations := findInterps inner.data
      if interpolations ≠ [] then
        "println!(\"" ++ String.mk (subInterps inner.data) ++ "\", " ++
          joinSep ", " interpolations ++ ")"
      else "println!(\"" ++ inner ++ "\")"
    else "println!(\"\x7b\x7d\", " ++ arg ++ ")"

/-- `getText` of an assignment target. -/
def Target.text : Target → String
  | .identT _ n => n
  | .otherT _ t => t

/-- Mutable state of `CodeGenVisitor` (atlas, symbol table, specialization
map and channel infos are read-only there and live in the `St` argument).
The struct-tracking members stay empty in this model: the struct forms that
populate them are outside the modelled fragment. -/
structure CG where
  uses_async : Bool := false
  declared_vars : List String := []
  struct_instance_vars : List (String × String) := []
  mut_struct_vars : List String := []
  literal_vars : List String := []
deriving DecidableEq, Repr

/-- Python `set.add` on a membership-only list. -/
def addVar (v : String) (l : List String) : List String :=
  if l.contains v then l else v :: l

/-- `CodeGenVisitor._detect_struct_assignment`: both detected forms (struct
instantiation, static method returning `Self`) are outside the modelled
fragment, so no assignment is detected. -/
def detect_struct_assignment (_e : Expr) : Option String := none

/-- `CodeGenVisitor._is_compile_time_literal_expr`. -/
def is_compile_time_literal_expr (cg : CG) : Expr → Bool
  | .lit _ l => !(strStarts l.text "\"")
  | .ident _ v => cg.literal_vars.contains v
  | .arith _ _ l r => is_compile_time_literal_expr cg l && is_compile_time_literal_expr cg r
  | .paren _ e => is_compile_time_literal_expr cg e
  | .call _ _ _ => false
  | _ => false

/-- `CodeGenVisitor._check_for_mut_method_call`: the positive path needs a
receiver recorded in `struct_instance_vars`, which stays empty here. -/
def check_for_mut_method_call (cg : CG) (_e : Expr) : CG := cg

/-! `CodeGenVisitor._prescan_statement` / `_prescan_block`. -/

mutual
def prescanStmt (cg : CG) : Stmt → CG
  | .assign (.identT _ var_name) e =>
    (match detect_struct_assignment e with
     | some struct_name =>
       { cg with struct_instance_vars := aset var_name struct_name cg.struct_instance_vars }
     | none =>
       if is_compile_time_literal_expr cg e then
         { cg with literal_vars := addVar var_name cg.literal_vars }
       else cg)
  | .assign (.otherT _ _) _ => cg
  | .exprStmt e => check_for_mut_method_call cg e
  | .ifS branches els =>
    let cg := prescanBranches cg branches
    (match els with
     | .noneB => cg
     | .someB b => prescanStmts cg b)
  | .forS _ _ _ body => prescanStmts cg body
  | .whileS _ body => prescanStmts cg body
  | .loopS body => prescanStmts cg body
  | _ => cg
def prescanStmts (cg : CG) : Stmts → CG
  | .nil => cg
  | .cons s rest => prescanStmts (prescanStmt cg s) rest
def prescanBranches (cg : CG) : IfBranches → CG
  | .nil => cg
  | .cons _ b rest => prescanBranches (prescanStmts cg b) rest
end

/-- `CodeGenVisitor._prescan_for_mut_vars`. -/
def prescan_for_mut_vars (st : St) (cg : CG) : CG :=
  match st.atlas.functions.lookup "main" with
  | some main_func => prescanStmts cg main_func.ctx.body
  | none => cg

/-! Expression visitors of `CodeGenVisitor` (pure: they only read state). -/

mutual
def cgExpr (st : St) (cg : CG) (e : Expr) : String :=
  match e with
  | .lit _ l =>
    -- visitLiteral
    let text := l.text
    if strStarts text "\"" && strHasChar text lbrace then render_interpolated_string text
    else text
  | .ident _ name => name
  | .arrayLit _ es => "vec![" ++ joinSep ", " (cgExprList st cg es) ++ "]"
  | .arith _ op l r => "(" ++ cgExpr st cg l ++ " " ++ op ++ " " ++ cgExpr st cg r ++ ")"
  | .cmpE _ op l r => "(" ++ cgExpr st cg l ++ " " ++ op ++ " " ++ cgExpr st cg r ++ ")"
  | .logicalE _ op l r => "(" ++ cgExpr st cg l ++ " " ++ op ++ " " ++ cgExpr st cg r ++ ")"
  | .unary _ op e1 => "(" ++ op ++ cgExpr st cg e1 ++ ")"
  | .paren _ e1 => "(" ++ cgExpr st cg e1 ++ ")"
  | .rangeE _ op l r =>
    if op = "..=" then cgExpr st cg l ++ "..=" ++ cgExpr st cg r
    else cgExpr st cg l ++ ".." ++ cgExpr st cg r
  | .indexE _ a i => cgExpr st cg a ++ "[" ++ cgExpr st cg i ++ "]"
  | .memberAccess _ target field =>
    -- visitMemberAccessExpr; the static-struct branch needs atlas structs,
    -- none of which exist in this model
    cgExpr st cg target ++ "." ++ field
  | .call iv callee args =>
    -- visitFunctionCallExpr
    let argsR := cgExprList st cg args
    let calleeR := cgExpr st cg callee
    if calleeR = "print" then render_print_call argsR
    else if hasDoubleColon calleeR.data then calleeR ++ "(" ++ joinSep ", " argsR ++ ")"
    else
      match callee with
      | .memberAccess _ _ _ => calleeR ++ "(" ++ joinSep ", " argsR ++ ")"
      | _ =>
        match st.specialization_map.lookup iv with
        | some mangled => mangled ++ "(" ++ joinSep ", " argsR ++ ")"
        | none => calleeR ++ "(" ++ joinSep ", " argsR ++ ")"
  | .recv _ ch =>
    -- visitChannelReceiveExpr
    match ch with
    | .ident _ chan_name =>
      if (st.channel_infos.lookup chan_name).isSome then
        chan_name ++ "_rx.recv().await.unwrap()"
      else cgExpr st cg ch ++ ".recv().await.unwrap()"
    | _ => cgExpr st cg ch ++ ".recv().await.unwrap()"
def cgExprList (st : St) (cg : CG) (es : Exprs) : List String :=
  match es with
  | .nil => []
  | .cons e rest => cgExpr st cg e :: cgExprList st cg rest
end

/-! Statement visitors of `CodeGenVisitor`. -/

mutual
def cgStmt (st : St) (s : Stmt) (cg : CG) : String × CG :=
  match s with
  | .assign target e =>
    -- visitVariableAssignment
    let targetText := target.text
    (match e with
     | .call _ (.ident _ "chan") _ =>
       -- chan() call: tuple destructuring
       let var_name := targetText
       (match st.channel_infos.lookup var_name with
        | some cid =>
          let elem_type := type_to_rust (chanGet st cid).element_type
          ("let (" ++ var_name ++ "_tx, mut " ++ var_name ++
             "_rx) = tokio::sync::mpsc::unbounded_channel::<" ++ elem_type ++ ">();",
           { cg with declared_vars := addVar var_name cg.declared_vars })
        | none =>
          ("let (" ++ var_name ++ "_tx, mut " ++ var_name ++
             "_rx) = tokio::sync::mpsc::unbounded_channel();",
           { cg with declared_vars := addVar var_name cg.declared_vars }))
     | _ =>
       let value := cgExpr st cg e
       match target with
       | .identT tiv var_name =>
         (match lookup_by_interval tiv none st with
          | none => ("let " ++ var_name ++ " = " ++ value ++ ";", cg)
          | some sid =>
            let sym := symGet st sid
            if sym.is_shadow || !(cg.declared_vars.contains var_name) then
              let cg := { cg with declared_vars := addVar var_name cg.declared_vars }
              let needs_mut := sym.is_mutated || cg.mut_struct_vars.contains var_name
              (if needs_mut then "let mut " ++ var_name ++ " = " ++ value ++ ";"
               else "let " ++ var_name ++ " = " ++ value ++ ";", cg)
            else (var_name ++ " = " ++ value ++ ";", cg))
       | .otherT _ txt => (txt ++ " = " ++ value ++ ";", cg))
  | .exprStmt e =>
    -- visitExpressionStatement
    let r := cgExpr st cg e
    (if strEnds r ";" then r else r ++ ";", cg)
  | .send _ sender value =>
    -- visitChannelSendStatement
    (sender ++ ".send(" ++ cgExpr st cg value ++ ").unwrap();", cg)
  | .spawnStmt iv fn args =>
    -- visitSpawnStatement
    let cg := { cg with uses_async := true }
    let func_name := cgExpr st cg fn
    let argsR := cgSpawnArgs st cg args
    let callR :=
      match st.specialization_map.lookup iv with
      | some mangled => mangled ++ "(" ++ joinSep ", " argsR ++ ")"
      | none => func_name ++ "(" ++ joinSep ", " argsR ++ ")"
    ("tokio::spawn(" ++ callR ++ ");", cg)
  | .retE e => ("return " ++ cgExpr st cg e ++ ";", cg)
  | .retNone => ("return;", cg)
  | .breakS => ("break;", cg)
  | .continueS => ("continue;", cg)
  | .ifS branches els =>
    -- visitIfStatement
    let (lines, cg) := cgIfBranches st branches true cg
    let (elines, cg) :=
      match els with
      | .noneB => ([], cg)
      | .someB b =>
        let (body, cg) := cgStmts st b cg
        (["\x7d else \x7b"] ++ body.map (fun stmt => "    " ++ stmt), cg)
    (joinLines (lines ++ elines ++ ["\x7d"]), cg)
  | .forS _ var iter body =>
    -- visitForStatement
    let iterable := cgExpr st cg iter
    let (body_stmts, cg) := cgStmts st body cg
    (joinLines (["for " ++ var ++ " in " ++ iterable ++ " \x7b"] ++
       body_stmts.map (fun stmt => "    " ++ stmt) ++ ["\x7d"]), cg)
  | .whileS cond body =>
    -- visitWhileStatement
    let condR := cgExpr st cg cond
    let (body_stmts, cg) := cgStmts st body cg
    (joinLines (["while " ++ condR ++ " \x7b"] ++
       body_stmts.map (fun stmt => "    " ++ stmt) ++ ["\x7d"]), cg)
  | .loopS body =>
    -- visitLoopStatement
    let (body_stmts, cg) := cgStmts st body cg
    (joinLines (["loop \x7b"] ++ body_stmts.map (fun stmt => "    " ++ stmt) ++ ["\x7d"]), cg)
def cgStmts (st : St) (ss : Stmts) (cg : CG) : List String × CG :=
  -- _generate_block (`if result:` drops empty strings)
  match ss with
  | .nil => ([], cg)
  | .cons s rest =>
    let (r, cg) := cgStmt st s cg
    let (rs, cg) := cgStmts st rest cg
    ((if r ≠ "" then [r] else []) ++ rs, cg)
def cgIfBranches (st : St) (bs : IfBranches) (isFirst : Bool) (cg : CG) : List String × CG :=
  match bs with
  | .nil => ([], cg)
  | .cons c b rest =>
    let cond := cgExpr st cg c
    let (body, cg) := cgStmts st b cg
    let kw := if isFirst then "if" else "\x7d else if"
    let lines := [kw ++ " " ++ cond ++ " \x7b"] ++ body.map (fun stmt => "    " ++ stmt)
    let (rlines, cg) := cgIfBranches st rest false cg
    (lines ++ rlines, cg)
def cgSpawnArgs (st : St) (cg : CG) (es : Exprs) : List String :=
  -- the spawn argument loop: channel identifier arguments get the _tx name
  match es with
  | .nil => []
  | .cons e rest =>
    let arg_code := cgExpr st cg e
    let arg_code :=
      match e with
      | .ident _ var_name =>
        if (st.channel_infos.lookup var_name).isSome then var_name ++ "_tx" else arg_code
      | _ => arg_code
    arg_code :: cgSpawnArgs st cg rest
end

/-- The parameter loop of `CodeGenVisitor._generate_function`. -/
def genParams (st : St) (func : FnInst) : List Param → Nat → List String
  | [], _ => []
  | p :: rest, i =>
    let s :=
      if i < func.arg_types.length then
        match func.arg_channel_infos.lookup i with
        | some cid => p.name ++ ": " ++ (chanGet st cid).to_rust_sender
        | none => p.name ++ ": " ++ type_to_rust (func.arg_types.getD i .UNKNOWN)
      else p.name
    s :: genParams st func rest (i + 1)

/-- `CodeGenVisitor._generate_function`. -/
def generate_function (st : St) (func : FnInst) (cg : CG) : String × CG :=
  let cg := { cg with declared_vars := [] }
  let params := genParams st func func.ctx.params 0
  let (body_stmts, cg) := cgStmts st func.ctx.body cg
  let return_type_str :=
    if func.return_type ≠ .VOID then " -> " ++ type_to_rust func.return_type else ""
  let async_kw := if func.is_async then "async " else ""
  let lines :=
    [async_kw ++ "fn " ++ func.mangled_name ++ "(" ++ joinSep ", " params ++ ")" ++
       return_type_str ++ " \x7b"] ++
    (body_stmts.flatMap (fun stmt => (splitLines stmt).map (fun line => "    " ++ line))) ++
    ["\x7d"]
  (joinLines lines, cg)

/-- Structured Rust output (`RustProgram`). -/
structure RustProg where
  imports : List String := []
  consts : List String := []
  structs : List String := []
  functions : List String := []
  main_body : List String := []
  uses_async : Bool := false
deriving DecidableEq, Repr

/-- The function loop of `CodeGenVisitor.generate`.  Accumulates the
emitted function strings and, for `main`, the entry body. -/
def genLoop (st : St) : List String → List String × List String × CG →
    List String × List String × CG
  | [], acc => acc
  | func_name :: rest, (functions, main_body, cg) =>
    match st.atlas.functions.lookup func_name with
    | none => genLoop st rest (functions, main_body, cg)
    | some func =>
      if func.name = "main" then
        let cg := { cg with declared_vars := [] }
        let (body, cg) := cgStmts st func.ctx.body cg
        genLoop st rest (functions, body, cg)
      else
        let (fstr, cg) := generate_function st func cg
        genLoop st rest (functions ++ [fstr], main_body, cg)

/-- `CodeGenVisitor.generate`.  The `consts` and `structs` loops run over
the empty maps of this model; note the imports are computed before the
function loop, so `uses_async` is still false at that point. -/
def generate (st : St) : RustProg × CG :=
  let cg := prescan_for_mut_vars st {}
  let imports := if cg.uses_async then ["use tokio;"] else []
  let (functions, main_body, cg) := genLoop st (topological_order st.atlas) ([], [], cg)
  ({ imports := imports, consts := [], structs := [], functions := functions,
     main_body := main_body, uses_async := cg.uses_async }, cg)

/-- `RustProgram.render`. -/
def render (p : RustProg) : String :=
  let parts :=
    (if p.imports ≠ [] then p.imports ++ [""] else []) ++
    (if p.consts ≠ [] then p.consts ++ [""] else []) ++
    (p.structs.flatMap (fun s => [s, ""])) ++
    (p.functions.flatMap (fun f => [f, ""])) ++
    (if p.uses_async then ["#[tokio::main]", "async fn main() \x7b"] else ["fn main() \x7b"]) ++
    (p.main_body.flatMap (fun stmt => (splitLines stmt).map (fun line => "    " ++ line))) ++
    ["\x7d"]
  joinLines parts

/-- The full pipeline of `zinc/main.py` `compile`: Atlas construction,
symbol resolution, code generation, rendering.  `fuel` bounds the phase-1
discovery sweeps of `resolve`. -/
def compileProgram (p : Program) (fuel : Nat) : Except String (St × RustProg × CG × String) :=
  match buildAtlas p with
  | .error e => .error e
  | .ok atlas =>
    let st := resolve fuel (initSt atlas)
    let (prog, cg) := generate st
    .ok (st, prog, cg, render prog)

/-! ### Definitions used by the specification statements -/

/-- The parse tree contains a `functionDeclaration` named `main` (top level
or as a struct method, both of which `visitChildren` reaches). -/
def hasMainFn (p : Program) : Bool :=
  p.any fun d =>
    match d with
    | .funcDecl fd => fd.name = "main"
    | .structDecl _ methods => methods.any (fun m => m.name = "main")
    | .constDecl _ _ => false

/-! Syntactic presence of a spawn statement (statements cannot occur inside
expressions, so only statement forms are searched). -/

mutual
def stmtHasSpawn : Stmt → Bool
  | .spawnStmt _ _ _ => true
  | .ifS branches els => branchesHaveSpawn branches || oblockHasSpawn els
  | .forS _ _ _ body => stmtsHaveSpawn body
  | .whileS _ body => stmtsHaveSpawn body
  | .loopS body => stmtsHaveSpawn body
  | _ => false
def stmtsHaveSpawn : Stmts → Bool
  | .nil => false
  | .cons s rest => stmtHasSpawn s || stmtsHaveSpawn rest
def branchesHaveSpawn : IfBranches → Bool
  | .nil => false
  | .cons _ b rest => stmtsHaveSpawn b || branchesHaveSpawn rest
def oblockHasSpawn : OBlock → Bool
  | .noneB => false
  | .someB b => stmtsHaveSpawn b
end

/-- The element type currently recorded for channel object `cid`. -/
def elemAt (st : St) (cid : Nat) : Option BaseType :=
  (st.chanHeap[cid]?).map (fun c => c.element_type)

/-- Number of entries of an association list carrying a given key. -/
def countKey (l : List (String × α)) (k : String) : Nat :=
  (l.filter (fun p => p.1 = k)).length

/-- The keys of an association list are pairwise distinct (an invariant of
every Python `dict` / `SortedDict`). -/
def NodupKeys (l : List (String × α)) : Prop := (l.map Prod.fst).Nodup

/-- `b` occurs somewhere before an occurrence of `a` in `l`. -/
def appearsBefore (l : List String) (b a : String) : Prop :=
  ∃ u v, l = u ++ a :: v ∧ b ∈ u

/-- One call-graph edge between existing specializations. -/
def callEdge (a : Atlas) (x y : String) : Prop :=
  (a.functions.lookup x).isSome ∧ (a.functions.lookup y).isSome ∧
    y ∈ (a.calls.lookup x).getD []

/-- Reachability along call-graph edges between existing specializations. -/
def Reaches (a : Atlas) : String → String → Prop := Relation.ReflTransGen (callEdge a)

/-- Number of function keys the DFS of `topological_order` has not yet
visited (its recursion-depth budget). -/
def unvis (a : Atlas) (s : TopoSt) : Nat :=
  ((a.functions.map Prod.fst).filter (fun k => decide (k ∉ s.visited))).length

/-- What one DFS call guarantees relative to its input state: the visited
set only grows, the result extends on the right, every visited name is an
old one or ends up in the extended result (the walk leaves no new
in-progress node behind), and every new result entry was unvisited
before. -/
def Step (s s2 : TopoSt) : Prop :=
  (∀ x ∈ s.visited, x ∈ s2.visited) ∧
  (∃ d, s2.result = s.result ++ d) ∧
  (∀ x ∈ s2.visited, x ∈ s.visited ∨ x ∈ s2.result) ∧
  (∀ x ∈ s2.result, x ∈ s.result ∨ x ∉ s.visited)

/-- DFS state invariant: the emitted order is duplicate-free, emitted names
are visited, visited names are function keys, and the emitted order already
satisfies the callee-first property for acyclic pairs. -/
def TInv (a : Atlas) (s : TopoSt) : Prop :=
  s.result.Nodup ∧
  (∀ x ∈ s.result, x ∈ s.visited) ∧
  (∀ x ∈ s.visited, (a.functions.lookup x).isSome = true) ∧
  (∀ A B, callEdge a A B → ¬ Reaches a B A → A ∈ s.result → appearsBefore s.result B A)

/-- The named symbols for `name` allocated after the heap had `n` objects. -/
def appendedNamed (st : St) (n : Nat) (name : String) : List Symbol :=
  (st.symHeap.drop n).filter (fun s => s.id = some name)

/-- Substring test over character lists (`needle`, then haystack). -/
def hasSub (p : List Char) : List Char → Bool
  | [] => p.isPrefixOf []
  | c :: rest => p.isPrefixOf (c :: rest) || hasSub p rest

/-- The function instance stored under `n` exists and its body contains a
spawn statement. -/
def fnBodyHasSpawn (st : St) (n : String) : Bool :=
  match st.atlas.functions.lookup n with
  | some f => stmtsHaveSpawn f.ctx.body
  | none => false

/-! ### Concrete example programs -/

/-- `main { c = chan(); c <- 1 }`. -/
def bodyChanSend : Stmts :=
  .cons (.assign (.identT (10, 10) "c") (.call (11, 14) (.ident (12, 12) "chan") .nil))
    (.cons (.send (20, 22) "c" (.lit (22, 22) (.intLit "1"))) .nil)

/-- The single-function program around `bodyChanSend`. -/
def exChan : Program := [.funcDecl { name := "main", params := [], body := bodyChanSend }]

/-- `main { c = chan(1); c <- 10 }` (bounded creation). -/
def bodyBounded : Stmts :=
  .cons (.assign (.identT (10, 10) "c")
      (.call (11, 15) (.ident (12, 12) "chan") (.cons (.lit (14, 14) (.intLit "1")) .nil)))
    (.cons (.send (20, 22) "c" (.lit (22, 22) (.intLit "10"))) .nil)

/-- `main { c = chan(); c <- 10 }` (unbounded creation, otherwise equal). -/
def bodyUnbounded : Stmts :=
  .cons (.assign (.identT (10, 10) "c") (.call (11, 15) (.ident (12, 12) "chan") .nil))
    (.cons (.send (20, 22) "c" (.lit (22, 22) (.intLit "10"))) .nil)

/-- The program around `bodyBounded`. -/
def exBounded : Program := [.funcDecl { name := "main", params := [], body := bodyBounded }]

/-- The program around `bodyUnbounded`. -/
def exUnbounded : Program := [.funcDecl { name := "main", params := [], body := bodyUnbounded }]

/-- `fn f(a) {}`. -/
def fnDefF : FnDef := { name := "f", params := [{ name := "a", iv := (3, 3) }], body := .nil }

/-- `main { spawn f(1) }` together with `fn f(a) {}`. -/
def exSpawn : Program :=
  [.funcDecl fnDefF,
   .funcDecl { name := "main", params := [],
               body := .cons (.spawnStmt (30, 36) (.ident (31, 31) "f")
                 (.cons (.lit (33, 33) (.intLit "1")) .nil)) .nil }]

/-- The argument list of the spawn statement of `exSpawn`. -/
def spawnArgsEx : Exprs := .cons (.lit (33, 33) (.intLit "1")) .nil

/-- A two-specialization atlas whose call graph has `main` calling `f`. -/
def atlasToy : Atlas :=
  { functions := [("f", { name := "f", mangled_name := "f", ctx := fnDefF, arg_types := [] }),
                  ("main", { name := "main", mangled_name := "main",
                             ctx := { name := "main", params := [], body := .nil },
                             arg_types := [] })],
    calls := [("f", []), ("main", ["f"])],
    function_defs := [] }

/-- The Atlas that `buildAtlas` produces for `exSpawn`. -/
def atlasSpawn : Atlas :=
  match buildAtlas exSpawn with
  | .ok a => a
  | .error _ => {}

/-- The analyzer state of `resolve` on `exSpawn` right before the spawn
statement of `main` (builtins registered, the `main` scope entered as by
`_resolve_function`; `main` has no parameters to define). -/
def stSpawnMid : St :=
  let st := register_builtins (initSt atlasSpawn)
  let st := { st with block_counters := [], current_function := some "main",
                      current_return_type := .VOID }
  enter_scope "main" st

/-- `main { b = [1]; b.push(2); b = [] }`. -/
def bodyShadow : Stmts :=
  .cons (.assign (.identT (10, 10) "b")
      (.arrayLit (12, 14) (.cons (.lit (13, 13) (.intLit "1")) .nil)))
    (.cons (.exprStmt (.call (20, 25) (.memberAccess (20, 22) (.ident (20, 20) "b") "push")
        (.cons (.lit (24, 24) (.intLit "2")) .nil)))
      (.cons (.assign (.identT (30, 30) "b") (.arrayLit (32, 33) .nil)) .nil))

/-- The program around `bodyShadow`. -/
def exShadow : Program := [.funcDecl { name := "main", params := [], body := bodyShadow }]

/-- `main { c = chan(); c <- 1; c <- "hi" }`. -/
def bodyConflict : Stmts :=
  .cons (.assign (.identT (10, 10) "c") (.call (11, 14) (.ident (12, 12) "chan") .nil))
    (.cons (.send (20, 22) "c" (.lit (22, 22) (.intLit "1")))
      (.cons (.send (30, 32) "c" (.lit (32, 32) (.strLit "\"hi\""))) .nil))

/-- The program around `bodyConflict`. -/
def exConflict : Program := [.funcDecl { name := "main", params := [], body := bodyConflict }]

/-- The Atlas that `buildAtlas` produces for `exConflict`. -/
def atlasConflict : Atlas :=
  match buildAtlas exConflict with
  | .ok a => a
  | .error _ => {}

/-- The analyzer state of `resolve` on `exConflict` right before the third
statement of `main` (builtins registered, the `main` scope entered as by
`_resolve_function`, the first two statements visited). -/
def stConflictMid : St :=
  let st := register_builtins (initSt atlasConflict)
  let st := { st with block_counters := [], current_function := some "main",
                      current_return_type := .VOID }
  let st := enter_scope "main" st
  svStmts (.cons (.assign (.identT (10, 10) "c")
      (.call (11, 14) (.ident (12, 12) "chan") .nil))
    (.cons (.send (20, 22) "c" (.lit (22, 22) (.intLit "1"))) .nil)) st

/-- The Atlas that `buildAtlas` produces for `exShadow`. -/
def atlasShadow : Atlas :=
  match buildAtlas exShadow with
  | .ok a => a
  | .error _ => {}

/-- The analyzer state of `resolve` on `exShadow` right before the third
statement of `main` (builtins registered, the `main` scope entered as by
`_resolve_function`, the first two statements visited: the array binding
and the `push` call that fixes its element type). -/
def stShadowMid : St :=
  let st := register_builtins (initSt atlasShadow)
  let st := { st with block_counters := [], current_function := some "main",
                      current_return_type := .VOID }
  let st := enter_scope "main" st
  svStmts (.cons (.assign (.identT (10, 10) "b")
      (.arrayLit (12, 14) (.cons (.lit (13, 13) (.intLit "1")) .nil)))
    (.cons (.exprStmt (.call (20, 25) (.memberAccess (20, 22) (.ident (20, 20) "b") "push")
        (.cons (.lit (24, 24) (.intLit "2")) .nil))) .nil)) st

/-- Monotonicity of recorded channel element types between two states:
every channel object whose element type is already a concrete type keeps
exactly that type. -/
def ElemPres (st st2 : St) : Prop :=
  ∀ cid τ, τ ≠ BaseType.UNKNOWN → elemAt st cid = some τ → elemAt st2 cid = some τ

/-! ## Theorems

General container lemmas first, then the claims in order. -/

theorem lookup_cons {κ : Type u} {α : Type v} [BEq κ] [LawfulBEq κ] [DecidableEq κ]
    (k k2 : κ) (v2 : α) (rest : List (κ × α)) :
    List.lookup k ((k2, v2) :: rest) = if k = k2 then some v2 else List.lookup k rest := by
  by_cases h : k = k2
  · simp [List.lookup, h]
  · have hb : (k == k2) = false := by simpa using h
    simp [List.lookup, h, hb]

theorem lookup_sinsert_self (k : String) (v : α) (l : List (String × α)) :
    (sinsert k v l).lookup k = some v := by
  induction l with
  | nil => simp [sinsert, lookup_cons]
  | cons p rest ih =>
    obtain ⟨k2, v2⟩ := p
    by_cases hk : k = k2
    · simp [sinsert, hk, lookup_cons]
    · by_cases hlt : strLtB k k2
      · simp [sinsert, hk, hlt, lookup_cons]
      · simp [sinsert, hk, hlt, lookup_cons, ih]

theorem lookup_sinsert_ne (k k' : String) (v : α) (l : List (String × α)) (h : k' ≠ k) :
    (sinsert k v l).lookup k' = l.lookup k' := by
  induction l with
  | nil => simp [sinsert, lookup_cons, h]
  | cons p rest ih =>
    obtain ⟨k2, v2⟩ := p
    by_cases hk : k = k2
    · subst hk
      simp [sinsert, lookup_cons, h]
    · by_cases hlt : strLtB k k2
      · simp [sinsert, hk, hlt, lookup_cons, h]
      · by_cases hk2 : k' = k2
        · simp [sinsert, hk, hlt, lookup_cons, hk2]
        · simp [sinsert, hk, hlt, lookup_cons, hk2, ih]

theorem lookup_supdate (k k' : String) (f : α → α) (l : List (String × α)) :
    (supdate k f l).lookup k' =
      if k' = k then (l.lookup k').map f else l.lookup k' := by
  induction l with
  | nil => simp [supdate, List.lookup]
  | cons p rest ih =>
    obtain ⟨k2, v2⟩ := p
    by_cases hk : k = k2
    · subst hk
      by_cases hk2 : k' = k
      · simp [supdate, lookup_cons, hk2]
      · simp [supdate, lookup_cons, hk2]
    · by_cases hk2 : k' = k2
      · subst hk2
        simp [supdate, hk, lookup_cons, Ne.symm hk]
      · simp [supdate, hk, lookup_cons, hk2, ih]

theorem supdate_supdate (k : String) (f g : α → α) (l : List (String × α)) :
    supdate k f (supdate k g l) = supdate k (fun v => f (g v)) l := by
  induction l with
  | nil => simp [supdate]
  | cons p rest ih =>
    obtain ⟨k2, v2⟩ := p
    by_cases hk : k = k2
    · simp [supdate, hk]
    · simp [supdate, hk, ih]

theorem supdate_congr (k : String) (f g : α → α) (l : List (String × α))
    (h : ∀ v, f v = g v) : supdate k f l = supdate k g l := by
  induction l with
  | nil => rfl
  | cons p rest ih =>
    obtain ⟨k2, v2⟩ := p
    by_cases hk : k = k2
    · simp [supdate, hk, h]
    · simp [supdate, hk, ih]

theorem ssinsert_idem (x : String) (l : List String) :
    ssinsert x (ssinsert x l) = ssinsert x l := by
  induction l with
  | nil => simp [ssinsert]
  | cons y rest ih =>
    by_cases hy : x = y
    · simp [ssinsert, hy]
    · by_cases hlt : strLtB x y
      · simp [ssinsert, hy, hlt]
      · simp [ssinsert, hy, hlt, ih]

theorem countKey_cons (k k2 : String) (v2 : α) (rest : List (String × α)) :
    countKey ((k2, v2) :: rest) k = countKey rest k + (if k2 = k then 1 else 0) := by
  by_cases h : k2 = k
  · simp [countKey, List.filter_cons, h]
  · simp [countKey, List.filter_cons, h]

theorem countKey_eq_zero_of_not_mem (k : String) (l : List (String × α))
    (h : k ∉ l.map Prod.fst) : countKey l k = 0 := by
  induction l with
  | nil => rfl
  | cons p rest ih =>
    simp only [List.map_cons, List.mem_cons] at h
    push_neg at h
    obtain ⟨k2, v2⟩ := p
    have hne : ¬(k2 = k) := fun hc => h.1 hc.symm
    rw [countKey_cons, if_neg hne, ih h.2]

theorem countKey_of_lookup_none (k : String) (l : List (String × α))
    (h : l.lookup k = none) : countKey l k = 0 := by
  induction l with
  | nil => rfl
  | cons p rest ih =>
    obtain ⟨k2, v2⟩ := p
    rw [lookup_cons] at h
    by_cases hk : k = k2
    · simp [hk] at h
    · rw [if_neg hk] at h
      rw [countKey_cons, if_neg (Ne.symm hk), ih h]

theorem countKey_sinsert_of_none (k : String) (v : α) (l : List (String × α))
    (h : l.lookup k = none) : countKey (sinsert k v l) k = 1 := by
  induction l with
  | nil => simp [sinsert, countKey]
  | cons p rest ih =>
    obtain ⟨k2, v2⟩ := p
    rw [lookup_cons] at h
    by_cases hk : k = k2
    · simp [hk] at h
    · rw [if_neg hk] at h
      have hne : ¬(k2 = k) := Ne.symm hk
      by_cases hlt : strLtB k k2
      · simp only [sinsert, if_neg hk, if_pos hlt]
        rw [countKey_cons, countKey_cons, if_pos rfl, if_neg hne,
          countKey_of_lookup_none k rest h]
      · simp only [sinsert, if_neg hk, if_neg hlt]
        rw [countKey_cons, if_neg hne, ih h]

theorem countKey_of_lookup_some (k : String) (v : α) (l : List (String × α))
    (hnd : NodupKeys l) (h : l.lookup k = some v) : countKey l k = 1 := by
  induction l with
  | nil => simp [List.lookup] at h
  | cons p rest ih =>
    obtain ⟨k2, v2⟩ := p
    simp only [NodupKeys, List.map_cons, List.nodup_cons] at hnd
    rw [lookup_cons] at h
    by_cases hk : k = k2
    · subst hk
      rw [countKey_cons, if_pos rfl, countKey_eq_zero_of_not_mem k rest hnd.1]
    · rw [if_neg hk] at h
      rw [countKey_cons, if_neg (Ne.symm hk), ih hnd.2 h]

/-! ### C6: deterministic name mangling -/

theorem intercalate_go_law (s : String) (l : List String) :
    ∀ acc b, String.intercalate.go (acc ++ s ++ b) s l =
      acc ++ s ++ String.intercalate.go b s l := by
  induction l with
  | nil => intro acc b; simp [String.intercalate.go]
  | cons x xs ih =>
    intro acc b
    show String.intercalate.go (acc ++ s ++ b ++ s ++ x) s xs = _
    rw [show acc ++ s ++ b ++ s ++ x = acc ++ s ++ (b ++ s ++ x) by
      simp [String.append_assoc]]
    rw [ih]
    rfl

theorem intercalate_cons_cons (s a b : String) (l : List String) :
    String.intercalate s (a :: b :: l) = a ++ s ++ String.intercalate s (b :: l) := by
  show String.intercalate.go (a ++ s ++ b) s l = _
  rw [intercalate_go_law]
  rfl

theorem mangle_nonempty (t : BaseType) (ts : List BaseType) :
    ∀ name, name ++ "_" ++ String.intercalate "_" ((t :: ts).map type_to_rust) =
      (t :: ts).foldl (fun acc u => acc ++ "_" ++ type_to_rust u) name := by
  induction ts generalizing t with
  | nil => intro name; rfl
  | cons t2 ts2 ih =>
    intro name
    rw [show (t :: t2 :: ts2).map type_to_rust =
        type_to_rust t :: type_to_rust t2 :: ts2.map type_to_rust from rfl]
    rw [intercalate_cons_cons]
    rw [show (t :: t2 :: ts2).foldl (fun acc u => acc ++ "_" ++ type_to_rust u) name =
        (t2 :: ts2).foldl (fun acc u => acc ++ "_" ++ type_to_rust u)
          (name ++ "_" ++ type_to_rust t) from rfl]
    rw [← ih t2 (name ++ "_" ++ type_to_rust t)]
    simp [String.append_assoc]

/-- Claim C6: for every function name and non-empty argument-type list the
mangled name is the name followed by the underscore-joined Rust type names
of the arguments, i.e. `name ++ "_" ++ rust t0 ++ "_" ++ rust t1 ++ ...`,
and for an empty argument-type list it is the name unchanged.  Both cases
coincide with the left fold below, which appends `"_" ++ type_to_rust t`
for each argument in order. -/
theorem mangle_name_spec (name : String) (ts : List BaseType) :
    mangle_name name ts =
      ts.foldl (fun acc t => acc ++ "_" ++ type_to_rust t) name := by
  cases ts with
  | nil => rfl
  | cons t rest =>
    show name ++ "_" ++ String.intercalate "_" ((t :: rest).map type_to_rust) = _
    exact mangle_nonempty t rest name

/-! ### C5: idempotence of specialization creation -/

/-- Claim C5: calling `add_specialization` twice with the same name and
argument types returns the same mangled name both times, leaves the whole
atlas unchanged by the second call (so the first instance is neither
duplicated nor replaced), and the resulting atlas holds exactly one
`FunctionInstance` under that mangled name. -/
theorem add_specialization_idempotent (a : Atlas) (hnd : NodupKeys a.functions)
    (name : String) (arg_types : List BaseType) (ctx : FnDef)
    (caller : Option String) :
    ((add_specialization (add_specialization a name arg_types ctx caller).2
        name arg_types ctx caller).1 =
      (add_specialization a name arg_types ctx caller).1) ∧
    ((add_specialization (add_specialization a name arg_types ctx caller).2
        name arg_types ctx caller).2 =
      (add_specialization a name arg_types ctx caller).2) ∧
    countKey (add_specialization a name arg_types ctx caller).2.functions
      (add_specialization a name arg_types ctx caller).1 = 1 := by
  set m := mangle_name name arg_types with hm
  refine ⟨rfl, ?_, ?_⟩
  · -- the second call changes nothing
    unfold add_specialization
    by_cases hlk : (a.functions.lookup m).isNone
    · simp only [← hm, hlk, if_true, if_pos]
      have hfl : ((sinsert m
          { name := name, mangled_name := m, ctx := ctx, arg_types := arg_types }
          a.functions).lookup m).isNone = false := by
        rw [lookup_sinsert_self]; rfl
      cases caller with
      | none =>
        simp [hfl]
      | some c =>
        by_cases hc : ((sinsert m ([] : List String) a.calls).lookup c).isSome
        · have hc2 : ((supdate c (ssinsert m) (sinsert m ([] : List String) a.calls)).lookup
              c).isSome = true := by
            rw [lookup_supdate]
            simp only [if_pos rfl]
            rcases Option.isSome_iff_exists.1 hc with ⟨w, hw⟩
            simp [hw]
          simp only [hfl, Bool.false_eq_true, if_false, hc, if_true, hc2]
          rw [supdate_supdate]
          rw [supdate_congr _ _ _ _ (fun v => ssinsert_idem m v)]
        · simp [hfl, hc]
    · -- the key already existed: the first call only touched the caller edge
      simp only [← hm, hlk, Bool.false_eq_true, if_false]
      cases caller with
      | none => simp [hlk]
      | some c =>
        by_cases hc : ((a.calls).lookup c).isSome
        · have hc2 : ((supdate c (ssinsert m) a.calls).lookup c).isSome = true := by
            rw [lookup_supdate]
            simp only [if_pos rfl]
            rcases Option.isSome_iff_exists.1 hc with ⟨w, hw⟩
            simp [hw]
          simp only [hc, if_true, hlk, Bool.false_eq_true, if_false, hc2]
          rw [supdate_supdate]
          rw [supdate_congr _ _ _ _ (fun v => ssinsert_idem m v)]
        · simp [hlk, hc]
  · -- exactly one instance under the mangled name
    unfold add_specialization
    by_cases hlk : (a.functions.lookup m).isNone
    · have h0 : a.functions.lookup m = none := Option.eq_none_iff_forall_not_mem.2
        (by intro x hx; rw [Option.isNone_iff_eq_none.1 hlk] at hx; cases hx)
      cases caller with
      | none =>
        simp only [← hm, hlk, if_true, if_pos]
        exact countKey_sinsert_of_none m _ a.functions h0
      | some c =>
        simp only [← hm, hlk, if_true, if_pos]
        by_cases hc : ((sinsert m ([] : List String) a.calls).lookup c).isSome
        · simp only [hc, if_true]
          exact countKey_sinsert_of_none m _ a.functions h0
        · simp only [hc, Bool.false_eq_true, if_false]
          exact countKey_sinsert_of_none m _ a.functions h0
    · obtain ⟨v, hv⟩ : ∃ v, a.functions.lookup m = some v := by
        cases hcase : a.functions.lookup m with
        | none => exact absurd (by simp [hcase]) hlk
        | some w => exact ⟨w, rfl⟩
      cases caller with
      | none =>
        simp only [← hm, hlk, Bool.false_eq_true, if_false]
        exact countKey_of_lookup_some m v a.functions hnd hv
      | some c =>
        simp only [← hm, hlk, Bool.false_eq_true, if_false]
        by_cases hc : ((a.calls).lookup c).isSome
        · simp only [hc, if_true]
          exact countKey_of_lookup_some m v a.functions hnd hv
        · simp only [hc, Bool.false_eq_true, if_false]
          exact countKey_of_lookup_some m v a.functions hnd hv

/-- Witness for C5 at the empty atlas, `f(i64)` spawned from `main`. -/
theorem add_specialization_idempotent_witness :
    NodupKeys (({} : Atlas)).functions ∧
    (((add_specialization (add_specialization {} "f" [.INTEGER] fnDefF (some "main")).2
        "f" [.INTEGER] fnDefF (some "main")).1 =
      (add_specialization {} "f" [.INTEGER] fnDefF (some "main")).1) ∧
    ((add_specialization (add_specialization {} "f" [.INTEGER] fnDefF (some "main")).2
        "f" [.INTEGER] fnDefF (some "main")).2 =
      (add_specialization {} "f" [.INTEGER] fnDefF (some "main")).2) ∧
    countKey (add_specialization {} "f" [.INTEGER] fnDefF (some "main")).2.functions
      (add_specialization {} "f" [.INTEGER] fnDefF (some "main")).1 = 1) :=
  ⟨by simp [NodupKeys],
   add_specialization_idempotent {} (by simp [NodupKeys]) "f" [.INTEGER] fnDefF (some "main")⟩

/-! ### C8: the Atlas builder fails exactly on a missing `main` -/

theorem visitFunctionDeclaration_main (b : Builder) (fd : FnDef) :
    (visitFunctionDeclaration b fd).main_ctx =
      if fd.name = "main" then some fd else b.main_ctx := by
  unfold visitFunctionDeclaration
  by_cases h : fd.name = "main" <;> simp [h]

theorem foldMethods_main (methods : List FnDef) : ∀ b : Builder,
    ((methods.foldl visitFunctionDeclaration b).main_ctx).isSome =
      (b.main_ctx.isSome || methods.any (fun m => m.name = "main")) := by
  induction methods with
  | nil => intro b; simp
  | cons m rest ih =>
    intro b
    simp only [List.foldl_cons, List.any_cons]
    rw [ih, visitFunctionDeclaration_main]
    by_cases h : m.name = "main" <;> simp [h]

theorem collect_main (p : Program) : ∀ b : Builder,
    ((p.foldl collectDecl b).main_ctx).isSome = (b.main_ctx.isSome || hasMainFn p) := by
  induction p with
  | nil => intro b; simp [hasMainFn]
  | cons d rest ih =>
    intro b
    simp only [List.foldl_cons]
    rw [ih]
    cases d with
    | funcDecl fd =>
      rw [show collectDecl b (.funcDecl fd) = visitFunctionDeclaration b fd from rfl]
      have hv : ((visitFunctionDeclaration b fd).main_ctx).isSome =
          (b.main_ctx.isSome || decide (fd.name = "main")) := by
        rw [visitFunctionDeclaration_main]
        by_cases h : fd.name = "main" <;> simp [h]
      have hr : hasMainFn (Decl.funcDecl fd :: rest) =
          (decide (fd.name = "main") || hasMainFn rest) := by
        simp [hasMainFn]
      rw [hv, hr, Bool.or_assoc]
    | structDecl name methods =>
      rw [show collectDecl b (.structDecl name methods) =
        methods.foldl visitFunctionDeclaration
          { b with struct_defs := sinsert name methods b.struct_defs } from rfl]
      rw [foldMethods_main]
      have hr : hasMainFn (Decl.structDecl name methods :: rest) =
          (methods.any (fun m => m.name = "main") || hasMainFn rest) := by
        simp [hasMainFn]
      rw [hr, Bool.or_assoc]
    | constDecl n e =>
      rw [show collectDecl b (.constDecl n e) =
        { b with const_defs := sinsert n e b.const_defs } from rfl]
      have hr : hasMainFn (Decl.constDecl n e :: rest) = hasMainFn rest := by
        simp [hasMainFn]
      rw [hr]

/-- Claim C8: `build` raises exactly when the parse tree contains no
function declaration named `main` (struct methods included, as
`visitChildren` reaches them); for every tree that defines `main` it
returns an Atlas, and otherwise compilation stops at the Atlas stage with
the missing-entry-point error. -/
theorem build_fails_iff_no_main (p : Program) :
    ((∃ a, buildAtlas p = Except.ok a) ↔ hasMainFn p = true) ∧
    (buildAtlas p = Except.error "No main() function found" ↔ hasMainFn p = false) := by
  have hs : ((collect p).main_ctx).isSome = hasMainFn p := by
    have := collect_main p {}
    simpa [collect] using this
  cases hc : (collect p).main_ctx with
  | none =>
    rw [hc] at hs
    simp only [Option.isSome_none] at hs
    have hb : buildAtlas p = Except.error "No main() function found" := by
      simp only [buildAtlas, hc]
    refine ⟨⟨?_, ?_⟩, ?_, ?_⟩
    · rintro ⟨a, ha⟩; rw [hb] at ha; cases ha
    · intro h; rw [← hs] at h; cases h
    · intro _; exact hs.symm
    · intro _; exact hb
  | some mainFd =>
    rw [hc] at hs
    simp only [Option.isSome_some] at hs
    have hb : ∃ a, buildAtlas p = Except.ok a := by
      simp only [buildAtlas, hc]
      exact ⟨_, rfl⟩
    refine ⟨⟨?_, ?_⟩, ?_, ?_⟩
    · intro _; exact hs.symm
    · intro _; exact hb
    · intro h
      rcases hb with ⟨a, ha⟩
      rw [h] at ha
      cases ha
    · intro h; rw [← hs] at h; cases h

/-- Witness-style instantiation of C8 on both sides: `exChan` defines
`main` and builds, while the single-function program `[fnDefF]` does not
define `main` and stops with the missing-entry-point error. -/
theorem build_fails_iff_no_main_witness :
    (∃ a, buildAtlas exChan = Except.ok a) ∧
    buildAtlas [.funcDecl fnDefF] = Except.error "No main() function found" :=
  ⟨(build_fails_iff_no_main exChan).1.2 (by decide),
   (build_fails_iff_no_main [.funcDecl fnDefF]).2.2 (by decide)⟩

/-! ### C1: names at emitted send sites (code-bug exhibit) -/

/-- Claim C1 (counter-evidence on the code): on `main { c = chan(); c <- 1 }`
the emitter destructures the channel into `c_tx` / `c_rx`, yet the send
statement is emitted against the plain name `c`, not the `_tx`-suffixed
sender name (the emitted Rust then references an unbound variable). -/
theorem send_site_keeps_plain_name :
    (compileProgram exChan 4).toOption.map (fun r => r.2.1.main_body) =
      some ["let (c_tx, mut c_rx) = tokio::sync::mpsc::unbounded_channel::<i64>();",
            "c.send(1).unwrap();"] ∧
    strStarts "c.send(1).unwrap();" "c_tx" = false := by
  exact ⟨by decide, by decide⟩

/-! ### C4: the capacity argument does not change the emitted program -/

/-- Claim C4 (counter-evidence on the code): the programs
`main { c = chan(1); c <- 10 }` and `main { c = chan(); c <- 10 }` compile
to byte-identical Rust output; the send site of both is the non-suspending
`send(..).unwrap()` shape and the creation site of both is an unbounded
channel, so no bounded/unbounded distinction is emitted at all. -/
theorem bounded_capacity_ignored :
    (compileProgram exBounded 4).toOption.map (fun r => r.2.2.2) =
      (compileProgram exUnbounded 4).toOption.map (fun r => r.2.2.2) ∧
    (compileProgram exBounded 4).toOption.map (fun r => r.2.1.main_body) =
      some ["let (c_tx, mut c_rx) = tokio::sync::mpsc::unbounded_channel::<i64>();",
            "c.send(10).unwrap();"] := by
  exact ⟨by decide, by decide⟩

/-! ### C9: conflicting channel send evidence -/

/-- Claim C9 as amended: once a channel's element type is a concrete type,
a subsequent send statement — whatever the type of the sent value — leaves
the analyzer state exactly as after visiting the value expression: the
element type keeps the first-seen type and nothing else changes (the
visitor has no error output to report into, so the conflict is silently
ignored). -/
theorem conflicting_send_ignored (iv : Iv) (name : String) (e : Expr) (st : St)
    (cid : Nat)
    (hci : (svExpr e st).2.channel_infos.lookup name = some cid)
    (hconc : (chanGet (svExpr e st).2 cid).element_type ≠ .UNKNOWN) :
    svStmt (.send iv name e) st = (svExpr e st).2 := by
  cases hsv : svExpr e st with
  | mk vt st1 =>
    rw [hsv] at hci hconc
    simp only [svStmt, hsv, hci]
    simp [hconc]

/-- Witness for `conflicting_send_ignored` at the state reached on
`main { c = chan(); c <- 1 }` with the conflicting send `c <- "hi"`. -/
theorem conflicting_send_ignored_witness :
    (svExpr (.lit (32, 32) (.strLit "\"hi\"")) stConflictMid).2.channel_infos.lookup "c" =
      some 0 ∧
    (chanGet (svExpr (.lit (32, 32) (.strLit "\"hi\"")) stConflictMid).2 0).element_type ≠
      .UNKNOWN ∧
    svStmt (.send (30, 32) "c" (.lit (32, 32) (.strLit "\"hi\""))) stConflictMid =
      (svExpr (.lit (32, 32) (.strLit "\"hi\"")) stConflictMid).2 :=
  ⟨by decide, by decide,
   conflicting_send_ignored (30, 32) "c" (.lit (32, 32) (.strLit "\"hi\"")) stConflictMid 0
     (by decide) (by decide)⟩

/-- Counterexample to claim C9 as stated: on
`main { c = chan(); c <- 1; c <- "hi" }` the channel's element type is
fixed to `INTEGER` by the first send; the third statement sends a `STRING`
value, yet the visit completes normally, the element type stays `INTEGER`
(the first-seen type wins silently), and the whole compilation runs to the
end with that type — no semantic error is reported anywhere. -/
theorem conflicting_send_cex :
    elemAt stConflictMid 0 = some .INTEGER ∧
    (svExpr (.lit (32, 32) (.strLit "\"hi\"")) stConflictMid).1 = .STRING ∧
    elemAt (svStmt (.send (30, 32) "c" (.lit (32, 32) (.strLit "\"hi\""))) stConflictMid) 0 =
      some .INTEGER ∧
    (compileProgram exConflict 4).toOption.map (fun r => r.1.chanHeap) =
      some [{ element_type := .INTEGER, is_bounded := false }] := by
  exact ⟨by decide, by decide, by decide, by decide⟩

/-! ### C3: shadow discipline -/

theorem chanBookkeeping_proj (t : BaseType) (e : Expr) (v : String) (st : St) :
    ∃ ch ci, chanBookkeeping t e v st = { st with chanHeap := ch, channel_infos := ci } := by
  unfold chanBookkeeping allocChan
  split
  · split
    · split
      · split
        · exact ⟨_, _, rfl⟩
        · exact ⟨st.chanHeap, st.channel_infos, rfl⟩
      · exact ⟨_, _, rfl⟩
    · exact ⟨st.chanHeap, st.channel_infos, rfl⟩
  · exact ⟨st.chanHeap, st.channel_infos, rfl⟩

theorem chanBookkeeping_scope (t : BaseType) (e : Expr) (v : String) (st : St) :
    (chanBookkeeping t e v st).scope_stack = st.scope_stack := by
  obtain ⟨ch, ci, h⟩ := chanBookkeeping_proj t e v st
  rw [h]

theorem chanBookkeeping_symHeap (t : BaseType) (e : Expr) (v : String) (st : St) :
    (chanBookkeeping t e v st).symHeap = st.symHeap := by
  obtain ⟨ch, ci, h⟩ := chanBookkeeping_proj t e v st
  rw [h]

theorem chanBookkeeping_lookup (t : BaseType) (e : Expr) (v n : String) (st : St) :
    lookup_by_id n (chanBookkeeping t e v st) = lookup_by_id n st := by
  unfold lookup_by_id
  rw [chanBookkeeping_scope]

theorem chanBookkeeping_symGet (t : BaseType) (e : Expr) (v : String) (st : St) (sid : Nat) :
    symGet (chanBookkeeping t e v st) sid = symGet st sid := by
  unfold symGet
  rw [chanBookkeeping_symHeap]

theorem define_symHeap (idn : String) (k : SymbolKind) (t : BaseType) (iv : Iv)
    (sh : Bool) (st : St) :
    ∃ sym : Symbol, (define idn k t iv sh st).2.symHeap = st.symHeap ++ [sym] ∧
      sym.id = some idn ∧ sym.is_shadow = sh ∧ sym.resolved_type = t :=
  ⟨_, rfl, rfl, rfl, rfl⟩

theorem define_temp_symHeap (t : BaseType) (iv : Iv) (k : SymbolKind) (st : St) :
    ∃ sym : Symbol, (define_temp t iv k st).2.symHeap = st.symHeap ++ [sym] ∧
      sym.id = none :=
  ⟨_, rfl, rfl⟩

theorem symSet_heap_length (st : St) (sid : Nat) (f : Symbol → Symbol) :
    (symSet st sid f).symHeap.length = st.symHeap.length := by
  simp [symSet]

/-- Claim C3 as amended: for an assignment to an identifier target, a fresh
named symbol with `is_shadow = true` is created exactly when a live prior
binding exists and either its resolved type differs from the new one, or
both are arrays, the prior binding carries a known element type and the
assigned expression is the empty array literal (the extra branch the
original claim misses).  With no prior binding a fresh non-shadow symbol is
created; with equal types outside the empty-array case no named symbol is
created and the prior binding is marked mutated. -/
theorem shadow_discipline (iv : Iv) (name : String) (e : Expr) (st : St) :
    (lookup_by_id name (svExpr e st).2 = none →
      ∃ u, appendedNamed (svStmt (.assign (.identT iv name) e) st)
          (svExpr e st).2.symHeap.length name = [u] ∧
        u.is_shadow = false ∧ u.resolved_type = (svExpr e st).1) ∧
    (∀ sid, lookup_by_id name (svExpr e st).2 = some sid →
      (((symGet (svExpr e st).2 sid).resolved_type ≠ (svExpr e st).1 ∨
        ((svExpr e st).1 = .ARRAY ∧ (symGet (svExpr e st).2 sid).element_type ≠ none ∧
          is_empty_array_literal e = true)) →
        ∃ u, appendedNamed (svStmt (.assign (.identT iv name) e) st)
            (svExpr e st).2.symHeap.length name = [u] ∧
          u.is_shadow = true ∧ u.resolved_type = (svExpr e st).1) ∧
      ((symGet (svExpr e st).2 sid).resolved_type = (svExpr e st).1 ∧
       ¬((svExpr e st).1 = .ARRAY ∧ (symGet (svExpr e st).2 sid).element_type ≠ none ∧
          is_empty_array_literal e = true) →
        appendedNamed (svStmt (.assign (.identT iv name) e) st)
          (svExpr e st).2.symHeap.length name = [] ∧
        (sid < (svExpr e st).2.symHeap.length →
          (symGet (svStmt (.assign (.identT iv name) e) st) sid).is_mutated = true))) := by
  cases hsv : svExpr e st with
  | mk vt st1 =>
    simp only [hsv]
    have hlen : (chanBookkeeping vt e name st1).symHeap.length = st1.symHeap.length := by
      rw [chanBookkeeping_symHeap]
    have hshadowAppended : ∀ sh : Bool,
        ∃ u, appendedNamed (define name .VARIABLE vt iv sh
            (chanBookkeeping vt e name st1)).2 st1.symHeap.length name = [u] ∧
          u.is_shadow = sh ∧ u.resolved_type = vt := by
      intro sh
      obtain ⟨sym, hheap, hid, hsh, hrt⟩ :=
        define_symHeap name .VARIABLE vt iv sh (chanBookkeeping vt e name st1)
      refine ⟨sym, ?_, hsh, hrt⟩
      unfold appendedNamed
      rw [hheap, ← hlen, List.drop_left]
      simp [hid]
    refine ⟨?_, ?_⟩
    · intro hnone
      have hnone2 : lookup_by_id name (chanBookkeeping vt e name st1) = none := by
        rw [chanBookkeeping_lookup]; exact hnone
      simp only [svStmt, hsv, hnone2]
      exact hshadowAppended false
    · intro sid hsome
      have hsome2 : lookup_by_id name (chanBookkeeping vt e name st1) = some sid := by
        rw [chanBookkeeping_lookup]; exact hsome
      have hsg : symGet (chanBookkeeping vt e name st1) sid = symGet st1 sid :=
        chanBookkeeping_symGet vt e name st1 sid
      refine ⟨?_, ?_⟩
      · intro hcond
        simp only [svStmt, hsv, hsome2]
        rcases hcond with hne | harr
        · rw [if_pos (by rw [hsg]; exact hne)]
          exact hshadowAppended true
        · by_cases hne : (symGet (chanBookkeeping vt e name st1) sid).resolved_type ≠ vt
          · rw [if_pos hne]
            exact hshadowAppended true
          · rw [if_neg hne, if_pos (by rw [hsg]; exact harr)]
            exact hshadowAppended true
      · intro hcond
        simp only [svStmt, hsv, hsome2]
        rw [if_neg (by rw [hsg]; simpa using hcond.1), if_neg (by rw [hsg]; exact hcond.2)]
        obtain ⟨tmp, hheap2, hidn⟩ :=
          define_temp_symHeap vt iv .TEMPORARY
            (symSet (chanBookkeeping vt e name st1) sid (fun sym => { sym with is_mutated := true }))
        have hl2 : (symSet (chanBookkeeping vt e name st1) sid
            (fun sym => { sym with is_mutated := true })).symHeap.length =
            st1.symHeap.length := by
          rw [symSet_heap_length, hlen]
        constructor
        · unfold appendedNamed
          rw [hheap2, ← hl2, List.drop_left]
          simp [hidn]
        · intro hsid
          have hsid2 : sid < (chanBookkeeping vt e name st1).symHeap.length := by
            rw [hlen]; exact hsid
          unfold symGet
          rw [hheap2]
          rw [show ∀ (l : List Symbol) (i : Nat) (d : Symbol), l.getD i d = (l[i]?).getD d
            from fun l i d => by simp [List.getD]]
          rw [List.getElem?_append, if_pos (by rw [hl2]; exact hsid)]
          have hset : (symSet (chanBookkeeping vt e name st1) sid
              (fun sym => { sym with is_mutated := true })).symHeap =
              (chanBookkeeping vt e name st1).symHeap.set sid
                { symGet (chanBookkeeping vt e name st1) sid with is_mutated := true } := rfl
          rw [hset, List.getElem?_set_self hsid2]
          rfl

/-- Witness for `shadow_discipline` at the state reached on
`main { b = [1]; b.push(2); ... }` with the final statement `b = []`. -/
theorem shadow_discipline_witness :
    lookup_by_id "b" (svExpr (.arrayLit (32, 33) .nil) stShadowMid).2 = some 4 ∧
    ∃ u, appendedNamed (svStmt (.assign (.identT (30, 30) "b") (.arrayLit (32, 33) .nil))
        stShadowMid) (svExpr (.arrayLit (32, 33) .nil) stShadowMid).2.symHeap.length "b" =
      [u] ∧ u.is_shadow = true ∧
      u.resolved_type = (svExpr (.arrayLit (32, 33) .nil) stShadowMid).1 :=
  ⟨by decide,
   ((shadow_discipline (30, 30) "b" (.arrayLit (32, 33) .nil) stShadowMid).2 4
       (by decide)).1 (Or.inr (by decide))⟩

/-- Counterexample to claim C3 as stated: on
`main { b = [1]; b.push(2); b = [] }` the final assignment re-binds `b` at
the same resolved type `ARRAY` as the still-live prior binding, yet a fresh
symbol with `is_shadow = true` is created (the empty-array-over-known-
element-type branch).  The full pipeline records, per resolution pass, a
non-shadow `b` and a shadow `b`, all of resolved type `ARRAY`. -/
theorem shadow_discipline_cex :
    ((compileProgram exShadow 4).toOption.map (fun r =>
      (r.1.symHeap.filter (fun s => s.id = some "b")).map
        (fun s => (s.resolved_type, s.is_shadow)))) =
      some [(.ARRAY, false), (.ARRAY, true), (.ARRAY, false), (.ARRAY, true)] ∧
    (svExpr (.arrayLit (32, 33) .nil) stShadowMid).1 = .ARRAY ∧
    lookup_by_id "b" (svExpr (.arrayLit (32, 33) .nil) stShadowMid).2 = some 4 ∧
    (symGet (svExpr (.arrayLit (32, 33) .nil) stShadowMid).2 4).resolved_type = .ARRAY ∧
    ((appendedNamed (svStmt (.assign (.identT (30, 30) "b") (.arrayLit (32, 33) .nil))
        stShadowMid) (svExpr (.arrayLit (32, 33) .nil) stShadowMid).2.symHeap.length "b").map
      (fun u => (u.is_shadow, u.id))) = [(true, some "b")] := by
  exact ⟨by decide, by decide, by decide, by decide, by decide⟩

/-! ### C7: channel element types are monotone -/

theorem ElemPres.refl (st : St) : ElemPres st st := fun _ _ _ h => h

theorem ElemPres.trans {a b c : St} (h1 : ElemPres a b) (h2 : ElemPres b c) :
    ElemPres a c := fun cid τ hτ h => h2 cid τ hτ (h1 cid τ hτ h)

theorem elemPres_of_heap_eq {st st2 : St} (h : st2.chanHeap = st.chanHeap) :
    ElemPres st st2 := by
  intro cid τ hτ hs
  unfold elemAt at hs ⊢
  rw [h]
  exact hs

theorem elemPres_allocChan (v : String) (st : St) : ElemPres st (allocChan v st) := by
  intro cid τ hτ hs
  unfold elemAt at hs ⊢
  rcases hget : st.chanHeap[cid]? with _ | info
  · rw [hget] at hs; cases hs
  · rw [hget] at hs
    have hlt : cid < st.chanHeap.length := by
      rcases List.getElem?_eq_some.1 hget with ⟨hlt2, _⟩
      exact hlt2
    show ((st.chanHeap ++ [{ element_type := .UNKNOWN : ChannelTypeInfo }])[cid]?).map
      (fun c => c.element_type) = some τ
    rw [List.getElem?_append, if_pos hlt, hget]
    exact hs

theorem elemPres_chanSet_guard (cid : Nat) (st : St) (vt : BaseType)
    (h : (chanGet st cid).element_type = .UNKNOWN) :
    ElemPres st (chanSet st cid (fun c => { c with element_type := vt })) := by
  intro cid2 τ hτ hs
  unfold elemAt at hs ⊢
  by_cases hc : cid = cid2
  · subst hc
    rcases hget : st.chanHeap[cid]? with _ | info
    · rw [hget] at hs; cases hs
    · rw [hget] at hs
      have hinfo : info.element_type = τ := by simpa using hs
      have hgd : chanGet st cid = info := by
        unfold chanGet
        rw [show st.chanHeap.getD cid default = (st.chanHeap[cid]?).getD default by
          simp [List.getD]]
        rw [hget]
        rfl
      rw [hgd] at h
      rw [h] at hinfo
      exact absurd hinfo.symm hτ
  · show (((st.chanHeap.set cid _)[cid2]?).map (fun c => c.element_type)) = some τ
    rw [List.getElem?_set_ne hc]
    exact hs

theorem pushBookkeeping_proj (m : String) (ats : List BaseType) (sid : Nat) (st : St) :
    ∃ heap, pushBookkeeping m ats sid st = { st with symHeap := heap } := by
  unfold pushBookkeeping symSet
  split
  · split
    · exact ⟨_, rfl⟩
    · exact ⟨st.symHeap, rfl⟩
  · exact ⟨st.symHeap, rfl⟩

theorem methodBookkeeping_proj (callee : Expr) (arg_types : List BaseType) (st : St) :
    ∃ heap, methodBookkeeping callee arg_types st = { st with symHeap := heap } := by
  unfold methodBookkeeping
  split
  · split
    · rename_i iv1 iv2 var_name method_name x sid heq
      obtain ⟨h2, hh2⟩ := pushBookkeeping_proj method_name arg_types sid
        (if is_mutating_method (symGet st sid).resolved_type method_name then
           symSet st sid (fun s => { s with is_mutated := true })
         else st)
      rw [hh2]
      split
      · exact ⟨h2, rfl⟩
      · exact ⟨h2, rfl⟩
    · exact ⟨st.symHeap, rfl⟩
  · exact ⟨st.symHeap, rfl⟩

theorem elemPres_methodBookkeeping (callee : Expr) (arg_types : List BaseType) (st : St) :
    ElemPres st (methodBookkeeping callee arg_types st) := by
  obtain ⟨heap, hh⟩ := methodBookkeeping_proj callee arg_types st
  rw [hh]
  exact elemPres_of_heap_eq (by rfl)

theorem svCallFallback_elemPres (iv : Iv) (fn : String) (st : St) :
    ElemPres st (svCallFallback iv fn st).2 := by
  unfold svCallFallback
  split
  · exact elemPres_of_heap_eq (by rfl)
  · exact elemPres_of_heap_eq (by rfl)

theorem elemPres_chanBookkeeping (t : BaseType) (e : Expr) (v : String) (st : St) :
    ElemPres st (chanBookkeeping t e v st) := by
  unfold chanBookkeeping
  split
  · split
    · split
      · split
        · exact elemPres_allocChan v st
        · exact ElemPres.refl st
      · exact elemPres_allocChan v st
    · exact ElemPres.refl st
  · exact ElemPres.refl st

mutual

theorem svExpr_elemPres (e : Expr) (st : St) : ElemPres st (svExpr e st).2 := by
  cases e with
  | lit iv l =>
    exact elemPres_of_heap_eq (by rfl)
  | ident iv name =>
    cases h : lookup_by_id name st with
    | some sid => simp only [svExpr, h]; exact elemPres_of_heap_eq (by rfl)
    | none => simp only [svExpr, h]; exact elemPres_of_heap_eq (by rfl)
  | arrayLit iv es =>
    have p1 := svExprs_elemPres es st
    cases h1 : svExprs es st with
    | mk ts st1 =>
      rw [h1] at p1
      simp only [svExpr, h1]
      exact p1.trans (elemPres_of_heap_eq (by rfl))
  | arith iv op l r =>
    have p1 := svExpr_elemPres l st
    cases h1 : svExpr l st with
    | mk lt st1 =>
      rw [h1] at p1
      have p2 := svExpr_elemPres r st1
      cases h2 : svExpr r st1 with
      | mk rt st2 =>
        rw [h2] at p2
        simp only [svExpr, h1, h2]
        exact (p1.trans p2).trans (elemPres_of_heap_eq (by rfl))
  | cmpE iv op l r =>
    have p1 := svExpr_elemPres l st
    cases h1 : svExpr l st with
    | mk lt st1 =>
      rw [h1] at p1
      have p2 := svExpr_elemPres r st1
      cases h2 : svExpr r st1 with
      | mk rt st2 =>
        rw [h2] at p2
        simp only [svExpr, h1, h2]
        exact (p1.trans p2).trans (elemPres_of_heap_eq (by rfl))
  | logicalE iv op l r =>
    have p1 := svExpr_elemPres l st
    cases h1 : svExpr l st with
    | mk lt st1 =>
      rw [h1] at p1
      have p2 := svExpr_elemPres r st1
      cases h2 : svExpr r st1 with
      | mk rt st2 =>
        rw [h2] at p2
        simp only [svExpr, h1, h2]
        exact (p1.trans p2).trans (elemPres_of_heap_eq (by rfl))
  | unary iv op e1 =>
    have p1 := svExpr_elemPres e1 st
    cases h1 : svExpr e1 st with
    | mk t1 st1 =>
      rw [h1] at p1
      simp only [svExpr, h1]
      exact p1.trans (elemPres_of_heap_eq (by rfl))
  | paren iv e1 =>
    have p1 := svExpr_elemPres e1 st
    cases h1 : svExpr e1 st with
    | mk t1 st1 =>
      rw [h1] at p1
      simp only [svExpr, h1]
      exact p1.trans (elemPres_of_heap_eq (by rfl))
  | rangeE iv op l r =>
    have p1 := svExpr_elemPres l st
    cases h1 : svExpr l st with
    | mk lt st1 =>
      rw [h1] at p1
      have p2 := svExpr_elemPres r st1
      cases h2 : svExpr r st1 with
      | mk rt st2 =>
        rw [h2] at p2
        simp only [svExpr, h1, h2]
        exact (p1.trans p2).trans (elemPres_of_heap_eq (by rfl))
  | indexE iv a i =>
    have p1 := svExpr_elemPres a st
    cases h1 : svExpr a st with
    | mk lt st1 =>
      rw [h1] at p1
      have p2 := svExpr_elemPres i st1
      cases h2 : svExpr i st1 with
      | mk rt st2 =>
        rw [h2] at p2
        simp only [svExpr, h1, h2]
        exact (p1.trans p2).trans (elemPres_of_heap_eq (by rfl))
  | memberAccess iv t field =>
    have p1 := svExpr_elemPres t st
    cases h1 : svExpr t st with
    | mk t1 st1 =>
      rw [h1] at p1
      simp only [svExpr, h1]
      exact p1.trans (elemPres_of_heap_eq (by rfl))
  | call iv callee args =>
    have p1 := svExpr_elemPres callee st
    cases h1 : svExpr callee st with
    | mk ct st1 =>
      rw [h1] at p1
      have p2 := svExprs_elemPres args st1
      cases h2 : svExprs args st1 with
      | mk ats st2 =>
        rw [h2] at p2
        have pm := elemPres_methodBookkeeping callee ats st2
        have p12 : ElemPres st (methodBookkeeping callee ats st2) := (p1.trans p2).trans pm
        simp only [svExpr, h1, h2]
        split
        · -- identifier callee: the specialization sub-branch
          repeat' split
          all_goals
            first
            | exact p12.trans (elemPres_of_heap_eq (by rfl))
            | exact p12.trans ((elemPres_of_heap_eq (by rfl)).trans
                (svCallFallback_elemPres _ _ _))
        · exact p12.trans (elemPres_of_heap_eq (by rfl))
  | recv iv ch =>
    have p1 := svExpr_elemPres ch st
    cases h1 : svExpr ch st with
    | mk t1 st1 =>
      rw [h1] at p1
      simp only [svExpr, h1]
      split
      · split
        · exact p1.trans (elemPres_of_heap_eq (by rfl))
        · exact p1.trans (elemPres_of_heap_eq (by rfl))
      · exact p1.trans (elemPres_of_heap_eq (by rfl))
termination_by sizeOf e

theorem svExprs_elemPres (es : Exprs) (st : St) : ElemPres st (svExprs es st).2 := by
  cases es with
  | nil => exact ElemPres.refl st
  | cons e rest =>
    have p1 := svExpr_elemPres e st
    cases h1 : svExpr e st with
    | mk t st1 =>
      rw [h1] at p1
      have p2 := svExprs_elemPres rest st1
      cases h2 : svExprs rest st1 with
      | mk ts st2 =>
        rw [h2] at p2
        simp only [svExprs, h1, h2]
        exact p1.trans p2
termination_by sizeOf es

theorem svSpawnArgs_elemPres (es : Exprs) (i : Nat) (st : St) :
    ElemPres st (svSpawnArgs es i st).2.2 := by
  cases es with
  | nil => exact ElemPres.refl st
  | cons e rest =>
    have p1 := svExpr_elemPres e st
    cases h1 : svExpr e st with
    | mk t st1 =>
      rw [h1] at p1
      have p2 := svSpawnArgs_elemPres rest (i + 1) st1
      cases h2 : svSpawnArgs rest (i + 1) st1 with
      | mk ts rest2 =>
        rw [h2] at p2
        simp only [svSpawnArgs, h1, h2]
        exact p1.trans p2
termination_by sizeOf es

theorem svStmt_elemPres (s : Stmt) (st : St) : ElemPres st (svStmt s st) := by
  cases s with
  | assign target e =>
    have p1 := svExpr_elemPres e st
    cases h1 : svExpr e st with
    | mk vt st1 =>
      rw [h1] at p1
      cases target with
      | identT tiv var_name =>
        have pc := elemPres_chanBookkeeping vt e var_name st1
        simp only [svStmt, h1]
        split
        · exact (p1.trans pc).trans (elemPres_of_heap_eq (by rfl))
        · split
          · exact (p1.trans pc).trans (elemPres_of_heap_eq (by rfl))
          · split
            · exact (p1.trans pc).trans (elemPres_of_heap_eq (by rfl))
            · exact (p1.trans pc).trans (elemPres_of_heap_eq (by rfl))
      | otherT tiv txt =>
        simp only [svStmt, h1]
        exact p1.trans (elemPres_of_heap_eq (by rfl))
  | exprStmt e =>
    have p1 := svExpr_elemPres e st
    cases h1 : svExpr e st with
    | mk t st1 =>
      rw [h1] at p1
      simp only [svStmt, h1]
      exact p1
  | send iv channel value =>
    have p1 := svExpr_elemPres value st
    cases h1 : svExpr value st with
    | mk vt st1 =>
      rw [h1] at p1
      simp only [svStmt, h1]
      split
      · rename_i cid hci
        split
        · rename_i hunk
          exact p1.trans (elemPres_chanSet_guard cid st1 vt hunk)
        · exact p1
      · exact p1
  | spawnStmt iv fn args =>
    simp only [svStmt]
    split
    · have p1 := svSpawnArgs_elemPres args 0 st
      cases h1 : svSpawnArgs args 0 st with
      | mk ats rest =>
        cases rest with
        | mk acis st1 =>
          rw [h1] at p1
          simp only [h1]
          repeat' split
          all_goals exact p1
    · exact ElemPres.refl st
  | retE e =>
    have p1 := svExpr_elemPres e st
    cases h1 : svExpr e st with
    | mk t st1 =>
      rw [h1] at p1
      simp only [svStmt, h1]
      split
      · exact p1.trans (elemPres_of_heap_eq (by rfl))
      · exact p1
  | retNone => exact ElemPres.refl st
  | breakS => exact ElemPres.refl st
  | continueS => exact ElemPres.refl st
  | ifS branches els =>
    have p1 := svIfConds_elemPres branches st
    have p2 := svIfBlocks_elemPres branches (svIfConds branches st)
    have p12 := p1.trans p2
    cases els with
    | noneB =>
      simp only [svStmt]
      exact p12
    | someB b =>
      have p3 := svStmts_elemPres b
        (enter_scope (next_block_name "if" (svIfBlocks branches (svIfConds branches st))).1
          (next_block_name "if" (svIfBlocks branches (svIfConds branches st))).2)
      simp only [svStmt]
      exact ((p12.trans (elemPres_of_heap_eq (by rfl))).trans p3).trans (elemPres_of_heap_eq (by rfl))
  | forS ivVar var iter body =>
    have p1 := svExpr_elemPres iter st
    cases h1 : svExpr iter st with
    | mk it st1 =>
      rw [h1] at p1
      simp only [svStmt, h1]
      have p2 := svStmts_elemPres body
        ((define var .VARIABLE (if it = .INTEGER then BaseType.INTEGER else BaseType.UNKNOWN)
          ivVar false (enter_scope (next_block_name "for" st1).1 (next_block_name "for" st1).2)).2)
      exact (((p1.trans (elemPres_of_heap_eq (by rfl))).trans (elemPres_of_heap_eq (by rfl))).trans
        p2).trans (elemPres_of_heap_eq (by rfl))
  | whileS cond body =>
    have p1 := svExpr_elemPres cond st
    cases h1 : svExpr cond st with
    | mk ct st1 =>
      rw [h1] at p1
      simp only [svStmt, h1]
      have p2 := svStmts_elemPres body
        (enter_scope (next_block_name "while" st1).1 (next_block_name "while" st1).2)
      exact ((p1.trans (elemPres_of_heap_eq (by rfl))).trans p2).trans (elemPres_of_heap_eq (by rfl))
  | loopS body =>
    simp only [svStmt]
    have p2 := svStmts_elemPres body
      (enter_scope (next_block_name "loop" st).1 (next_block_name "loop" st).2)
    exact ((ElemPres.refl st).trans (elemPres_of_heap_eq (by rfl))).trans
      (p2.trans (elemPres_of_heap_eq (by rfl)))
termination_by sizeOf s

theorem svStmts_elemPres (ss : Stmts) (st : St) : ElemPres st (svStmts ss st) := by
  cases ss with
  | nil => exact ElemPres.refl st
  | cons s rest =>
    have p1 := svStmt_elemPres s st
    have p2 := svStmts_elemPres rest (svStmt s st)
    simp only [svStmts]
    exact p1.trans p2
termination_by sizeOf ss

theorem svIfConds_elemPres (bs : IfBranches) (st : St) :
    ElemPres st (svIfConds bs st) := by
  cases bs with
  | nil => exact ElemPres.refl st
  | cons c b rest =>
    have p1 := svExpr_elemPres c st
    have p2 := svIfConds_elemPres rest (svExpr c st).2
    simp only [svIfConds]
    exact p1.trans p2
termination_by sizeOf bs

theorem svIfBlocks_elemPres (bs : IfBranches) (st : St) :
    ElemPres st (svIfBlocks bs st) := by
  cases bs with
  | nil => exact ElemPres.refl st
  | cons c b rest =>
    simp only [svIfBlocks]
    have p1 := svStmts_elemPres b
      (enter_scope (next_block_name "if" st).1 (next_block_name "if" st).2)
    have p2 := svIfBlocks_elemPres rest
      (exit_scope (svStmts b (enter_scope (next_block_name "if" st).1 (next_block_name "if" st).2)))
    exact (((elemPres_of_heap_eq (by rfl)).trans p1).trans (elemPres_of_heap_eq (by rfl))).trans p2
termination_by sizeOf bs

end

theorem defineParams_elemPres (func : FnInst) (ps : List Param) (i : Nat) (st : St) :
    ElemPres st (defineParams func ps i st) := by
  induction ps generalizing i st with
  | nil => exact ElemPres.refl st
  | cons p rest ih =>
    simp only [defineParams]
    split
    · split
      · exact (elemPres_of_heap_eq (by rfl)).trans (ih _ _)
      · exact (elemPres_of_heap_eq (by rfl)).trans (ih _ _)
    · exact (elemPres_of_heap_eq (by rfl)).trans (ih _ _)

theorem resolve_function_elemPres (mangled : String) (st : St) :
    ElemPres st (resolve_function mangled st) := by
  unfold resolve_function
  split
  · exact ElemPres.refl st
  · rename_i func hfunc
    have p1 : ElemPres st (defineParams func func.ctx.params 0
        (enter_scope mangled
          { st with block_counters := [], current_function := some mangled,
                    current_return_type := .VOID })) :=
      (elemPres_of_heap_eq (by rfl)).trans (defineParams_elemPres _ _ _ _)
    have p2 := svStmts_elemPres func.ctx.body
      (defineParams func func.ctx.params 0
        (enter_scope mangled
          { st with block_counters := [], current_function := some mangled,
                    current_return_type := .VOID }))
    exact (p1.trans p2).trans (elemPres_of_heap_eq (by rfl))

theorem foldl_resolve_elemPres (keys : List String) (st : St) :
    ElemPres st (keys.foldl (fun st m => resolve_function m st) st) := by
  induction keys generalizing st with
  | nil => exact ElemPres.refl st
  | cons k rest ih =>
    simp only [List.foldl_cons]
    exact (resolve_function_elemPres k st).trans (ih _)

theorem phase1_step_elemPres (keys : List String) :
    ∀ (acc : Bool × List String × St),
      ElemPres acc.2.2 (keys.foldl
        (fun (acc : Bool × List String × St) k =>
          if k ∈ acc.2.1 then (acc.1, acc.2.1, acc.2.2)
          else (true, k :: acc.2.1, resolve_function k acc.2.2)) acc).2.2 := by
  induction keys with
  | nil => intro acc; exact ElemPres.refl _
  | cons k rest ih =>
    intro acc
    simp only [List.foldl_cons]
    by_cases h : k ∈ acc.2.1
    · rw [if_pos h]
      exact ih _
    · rw [if_neg h]
      exact (resolve_function_elemPres k acc.2.2).trans
        (ih (true, k :: acc.2.1, resolve_function k acc.2.2))

theorem phase1_elemPres (fuel : Nat) : ∀ (processed : List String) (st : St),
    ElemPres st (phase1 fuel processed st) := by
  induction fuel with
  | zero => intro processed st; exact ElemPres.refl st
  | succ n ih =>
    intro processed st
    simp only [phase1]
    split
    · exact (phase1_step_elemPres (st.atlas.functions.map Prod.fst)
        (false, processed, st)).trans (ih _ _)
    · exact phase1_step_elemPres (st.atlas.functions.map Prod.fst) (false, processed, st)

/-- Claim C7: once a channel object's recorded element type has become a
concrete (non-`UNKNOWN`) type, no later analyzer operation changes it: not
a statement visit (in particular a subsequent send or a `chan()`
re-creation of the same variable name), not `_resolve_function`, and not a
whole `resolve` run (re-resolution passes included).  Stated on the object
heap, which is what the Python code mutates through shared references. -/
theorem channel_elem_monotone :
    (∀ (s : Stmt) (st : St) (cid : Nat) (τ : BaseType), τ ≠ .UNKNOWN →
      elemAt st cid = some τ → elemAt (svStmt s st) cid = some τ) ∧
    (∀ (mangled : String) (st : St) (cid : Nat) (τ : BaseType), τ ≠ .UNKNOWN →
      elemAt st cid = some τ → elemAt (resolve_function mangled st) cid = some τ) ∧
    (∀ (fuel : Nat) (st : St) (cid : Nat) (τ : BaseType), τ ≠ .UNKNOWN →
      elemAt st cid = some τ → elemAt (resolve fuel st) cid = some τ) := by
  refine ⟨fun s st => svStmt_elemPres s st,
          fun m st => resolve_function_elemPres m st,
          fun fuel st => ?_⟩
  have h1 : ElemPres st (resolve fuel st) := by
    unfold resolve
    exact (((elemPres_of_heap_eq (by rfl)).trans (elemPres_of_heap_eq (by rfl))).trans
      (phase1_elemPres fuel [] _)).trans (foldl_resolve_elemPres _ _)
  exact h1

/-- Witness for `channel_elem_monotone` at the state reached on
`main { c = chan(); c <- 1 }`, whose channel 0 has element type `INTEGER`:
a further conflicting send, a `_resolve_function` run and a `resolve` run
all keep it. -/
theorem channel_elem_monotone_witness :
    BaseType.INTEGER ≠ BaseType.UNKNOWN ∧
    elemAt stConflictMid 0 = some .INTEGER ∧
    elemAt (svStmt (.send (30, 32) "c" (.lit (32, 32) (.strLit "\"hi\""))) stConflictMid) 0 =
      some .INTEGER ∧
    elemAt (resolve_function "main" stConflictMid) 0 = some .INTEGER ∧
    elemAt (resolve 2 stConflictMid) 0 = some .INTEGER :=
  ⟨by decide, by decide,
   channel_elem_monotone.1 (.send (30, 32) "c" (.lit (32, 32) (.strLit "\"hi\"")))
     stConflictMid 0 .INTEGER (by decide) (by decide),
   channel_elem_monotone.2.1 "main" stConflictMid 0 .INTEGER (by decide) (by decide),
   channel_elem_monotone.2.2 2 stConflictMid 0 .INTEGER (by decide) (by decide)⟩

/-! ### Claim C2: the `async` marker -/

theorem lookup_aset_self {κ : Type u} {α : Type v} [BEq κ] [LawfulBEq κ] [DecidableEq κ]
    (k : κ) (v : α) (l : List (κ × α)) : (aset k v l).lookup k = some v := by
  induction l with
  | nil => simp [aset, lookup_cons]
  | cons p rest ih =>
    obtain ⟨k2, v2⟩ := p
    by_cases hk : k = k2
    · simp [aset, hk, lookup_cons]
    · have hb : (k == k2) = false := by simpa using hk
      simp [aset, hb, lookup_cons, hk, ih]

theorem add_specialization_mem (a : Atlas) (n : String) (ts : List BaseType)
    (fd : FnDef) (c : Option String) :
    ∃ i, ((add_specialization a n ts fd c).2).functions.lookup (mangle_name n ts) = some i := by
  simp only [add_specialization]
  cases hx : a.functions.lookup (mangle_name n ts) with
  | none =>
    simp only [hx, Option.isNone_none, if_true]
    repeat' split
    all_goals exact ⟨_, lookup_sinsert_self _ _ _⟩
  | some i =>
    simp only [hx, Option.isNone_some, Bool.false_eq_true, if_false]
    repeat' split
    all_goals exact ⟨i, hx⟩

theorem data_append (a b : String) : (a ++ b).data = a.data ++ b.data := rfl

theorem joinLines_cons_data (s : String) (l : List String) :
    ∃ t, (joinLines (s :: l)).data = s.data ++ t := by
  cases l with
  | nil => exact ⟨[], by simp [joinLines]⟩
  | cons b bs =>
    refine ⟨"\n".data ++ (joinLines (b :: bs)).data, ?_⟩
    show ((s ++ "\n") ++ joinLines (b :: bs)).data = _
    rw [data_append, data_append]
    exact List.append_assoc _ _ _

theorem isPrefixOf_append_left (p u : List Char) : p.isPrefixOf (p ++ u) = true := by
  induction p with
  | nil =>
    cases u with
    | nil => rfl
    | cons c cs => rfl
  | cons c cs ih =>
    show ((c == c) && cs.isPrefixOf (cs ++ u)) = true
    rw [beq_self_eq_true, Bool.true_and]
    exact ih

theorem isPrefixOf_async_fn (u : List Char) :
    List.isPrefixOf "async ".data ("fn ".data ++ u) = false := by
  show (('a' == 'f') && List.isPrefixOf "sync ".data ("n ".data ++ u)) = false
  rw [show (('a' : Char) == 'f') = false from rfl, Bool.false_and]

theorem generate_function_async_kw (st : St) (func : FnInst) (cg : CG) :
    strStarts (generate_function st func cg).1 "async " = func.is_async := by
  cases hc : cgStmts st func.ctx.body { cg with declared_vars := [] } with
  | mk body cg1 =>
    cases h : func.is_async with
    | true =>
      simp only [generate_function, hc, h, if_true]
      obtain ⟨t, ht⟩ := joinLines_cons_data
        ("async " ++ "fn " ++ func.mangled_name ++ "(" ++
           joinSep ", " (genParams st func func.ctx.params 0) ++ ")" ++
           (if func.return_type ≠ .VOID then " -> " ++ type_to_rust func.return_type else "") ++
           " \x7b")
        ((body.flatMap (fun stmt => (splitLines stmt).map (fun line => "    " ++ line))) ++
          ["\x7d"])
      unfold strStarts
      simp only [List.cons_append, List.nil_append]
      rw [ht]
      simp only [data_append, List.append_assoc]
      exact isPrefixOf_append_left _ _
    | false =>
      simp only [generate_function, hc, h, Bool.false_eq_true, if_false]
      obtain ⟨t, ht⟩ := joinLines_cons_data
        ("" ++ "fn " ++ func.mangled_name ++ "(" ++
           joinSep ", " (genParams st func func.ctx.params 0) ++ ")" ++
           (if func.return_type ≠ .VOID then " -> " ++ type_to_rust func.return_type else "") ++
           " \x7b")
        ((body.flatMap (fun stmt => (splitLines stmt).map (fun line => "    " ++ line))) ++
          ["\x7d"])
      unfold strStarts
      simp only [List.cons_append, List.nil_append]
      rw [ht]
      simp only [data_append, List.append_assoc, show ("" : String).data = [] from rfl,
        List.nil_append]
      exact isPrefixOf_async_fn _

mutual

theorem cgStmt_usesAsync (st : St) (s : Stmt) (cg : CG) :
    (cgStmt st s cg).2.uses_async = (cg.uses_async || stmtHasSpawn s) := by
  cases s with
  | assign target e =>
    simp only [cgStmt, stmtHasSpawn, Bool.or_false]
    repeat' split
    all_goals rfl
  | exprStmt e =>
    simp only [cgStmt, stmtHasSpawn, Bool.or_false]
  | send iv channel value =>
    simp only [cgStmt, stmtHasSpawn, Bool.or_false]
  | spawnStmt iv fn args =>
    simp only [cgStmt, stmtHasSpawn, Bool.or_true]
  | retE e => simp only [cgStmt, stmtHasSpawn, Bool.or_false]
  | retNone => simp only [cgStmt, stmtHasSpawn, Bool.or_false]
  | breakS => simp only [cgStmt, stmtHasSpawn, Bool.or_false]
  | continueS => simp only [cgStmt, stmtHasSpawn, Bool.or_false]
  | ifS branches els =>
    have h1 := cgIfBranches_usesAsync st branches true cg
    cases hb : cgIfBranches st branches true cg with
    | mk lines cg1 =>
      rw [hb] at h1
      cases els with
      | noneB =>
        simp only [cgStmt, hb, stmtHasSpawn, oblockHasSpawn, Bool.or_false]
        exact h1
      | someB b =>
        have h2 := cgStmts_usesAsync st b cg1
        cases hc : cgStmts st b cg1 with
        | mk body cg2 =>
          rw [hc] at h2
          simp only [cgStmt, hb, hc, stmtHasSpawn, oblockHasSpawn]
          rw [h2, h1, Bool.or_assoc]
  | forS ivVar var iter body =>
    have h2 := cgStmts_usesAsync st body cg
    cases hc : cgStmts st body cg with
    | mk bodyR cg2 =>
      rw [hc] at h2
      simp only [cgStmt, hc, stmtHasSpawn]
      exact h2
  | whileS cond body =>
    have h2 := cgStmts_usesAsync st body cg
    cases hc : cgStmts st body cg with
    | mk bodyR cg2 =>
      rw [hc] at h2
      simp only [cgStmt, hc, stmtHasSpawn]
      exact h2
  | loopS body =>
    have h2 := cgStmts_usesAsync st body cg
    cases hc : cgStmts st body cg with
    | mk bodyR cg2 =>
      rw [hc] at h2
      simp only [cgStmt, hc, stmtHasSpawn]
      exact h2
termination_by sizeOf s

theorem cgStmts_usesAsync (st : St) (ss : Stmts) (cg : CG) :
    (cgStmts st ss cg).2.uses_async = (cg.uses_async || stmtsHaveSpawn ss) := by
  cases ss with
  | nil => simp [cgStmts, stmtsHaveSpawn]
  | cons s rest =>
    have h1 := cgStmt_usesAsync st s cg
    cases hb : cgStmt st s cg with
    | mk r cg1 =>
      rw [hb] at h1
      have h2 := cgStmts_usesAsync st rest cg1
      cases hc : cgStmts st rest cg1 with
      | mk rs cg2 =>
        rw [hc] at h2
        simp only [cgStmts, hb, hc, stmtsHaveSpawn]
        rw [h2, h1, Bool.or_assoc]
termination_by sizeOf ss

theorem cgIfBranches_usesAsync (st : St) (bs : IfBranches) (isFirst : Bool) (cg : CG) :
    (cgIfBranches st bs isFirst cg).2.uses_async = (cg.uses_async || branchesHaveSpawn bs) := by
  cases bs with
  | nil => simp [cgIfBranches, branchesHaveSpawn]
  | cons c b rest =>
    have h1 := cgStmts_usesAsync st b cg
    cases hb : cgStmts st b cg with
    | mk body cg1 =>
      rw [hb] at h1
      have h2 := cgIfBranches_usesAsync st rest false cg1
      cases hc : cgIfBranches st rest false cg1 with
      | mk rlines cg2 =>
        rw [hc] at h2
        simp only [cgIfBranches, hb, hc, branchesHaveSpawn]
        rw [h2, h1, Bool.or_assoc]
termination_by sizeOf bs

end

mutual

theorem prescanStmt_usesAsync (cg : CG) (s : Stmt) :
    (prescanStmt cg s).uses_async = cg.uses_async := by
  cases s with
  | assign target e =>
    cases target with
    | identT tiv var_name =>
      simp only [prescanStmt]
      repeat' split
      all_goals rfl
    | otherT tiv txt => rfl
  | exprStmt e => rfl
  | ifS branches els =>
    cases els with
    | noneB =>
      simp only [prescanStmt]
      exact prescanBranches_usesAsync cg branches
    | someB b =>
      simp only [prescanStmt]
      rw [prescanStmts_usesAsync, prescanBranches_usesAsync]
  | forS ivVar var iter body => exact prescanStmts_usesAsync cg body
  | whileS cond body => exact prescanStmts_usesAsync cg body
  | loopS body => exact prescanStmts_usesAsync cg body
  | send iv c v => rfl
  | spawnStmt iv fn args => rfl
  | retE e => rfl
  | retNone => rfl
  | breakS => rfl
  | continueS => rfl
termination_by sizeOf s

theorem prescanStmts_usesAsync (cg : CG) (ss : Stmts) :
    (prescanStmts cg ss).uses_async = cg.uses_async := by
  cases ss with
  | nil => rfl
  | cons s rest =>
    simp only [prescanStmts]
    rw [prescanStmts_usesAsync, prescanStmt_usesAsync]
termination_by sizeOf ss

theorem prescanBranches_usesAsync (cg : CG) (bs : IfBranches) :
    (prescanBranches cg bs).uses_async = cg.uses_async := by
  cases bs with
  | nil => rfl
  | cons c b rest =>
    simp only [prescanBranches]
    rw [prescanBranches_usesAsync, prescanStmts_usesAsync]
termination_by sizeOf bs

end

theorem generate_function_usesAsync (st : St) (func : FnInst) (cg : CG) :
    (generate_function st func cg).2.uses_async =
      (cg.uses_async || stmtsHaveSpawn func.ctx.body) := by
  have h := cgStmts_usesAsync st func.ctx.body { cg with declared_vars := [] }
  cases hc : cgStmts st func.ctx.body { cg with declared_vars := [] } with
  | mk body cg1 =>
    rw [hc] at h
    simp only [generate_function, hc]
    exact h

theorem genLoop_usesAsync (st : St) (order : List String) :
    ∀ (functions main_body : List String) (cg : CG),
      (genLoop st order (functions, main_body, cg)).2.2.uses_async =
        (cg.uses_async || order.any (fnBodyHasSpawn st)) := by
  induction order with
  | nil => intro functions main_body cg; simp [genLoop]
  | cons n rest ih =>
    intro functions main_body cg
    cases hl : st.atlas.functions.lookup n with
    | none =>
      simp only [genLoop, hl]
      rw [ih]
      simp [List.any_cons, fnBodyHasSpawn, hl]
    | some func =>
      by_cases hm : func.name = "main"
      · have h := cgStmts_usesAsync st func.ctx.body { cg with declared_vars := [] }
        cases hc : cgStmts st func.ctx.body { cg with declared_vars := [] } with
        | mk body cg1 =>
          rw [hc] at h
          simp only [genLoop, hl]
          rw [if_pos hm]
          simp only [hc]
          rw [ih, h]
          simp [List.any_cons, fnBodyHasSpawn, hl, Bool.or_assoc]
      · have h := generate_function_usesAsync st func cg
        cases hg : generate_function st func cg with
        | mk fstr cg1 =>
          rw [hg] at h
          simp only [genLoop, hl]
          rw [if_neg hm]
          simp only [hg]
          rw [ih, h]
          simp [List.any_cons, fnBodyHasSpawn, hl, Bool.or_assoc]

theorem generate_usesAsync (st : St) :
    (generate st).1.uses_async = (topological_order st.atlas).any (fnBodyHasSpawn st) := by
  have h0 : (prescan_for_mut_vars st {}).uses_async = false := by
    unfold prescan_for_mut_vars
    split
    · rw [prescanStmts_usesAsync]
    · rfl
  have h := genLoop_usesAsync st (topological_order st.atlas) [] [] (prescan_for_mut_vars st {})
  cases hg : genLoop st (topological_order st.atlas) ([], [], prescan_for_mut_vars st {}) with
  | mk functions rest2 =>
    cases rest2 with
    | mk main_body cgf =>
      rw [hg] at h
      simp only [generate, hg]
      rw [h, h0, Bool.false_or]

theorem svStmt_spawn_async (iv iv2 : Iv) (fname : String) (args : Exprs) (st : St)
    (ats : List BaseType) (acis : List (Nat × Nat)) (st1 : St)
    (hsv : svSpawnArgs args 0 st = (ats, acis, st1))
    (hname : ¬(fname = "print" ∨ fname = "chan"))
    (fd : FnDef) (hfd : st1.atlas.function_defs.lookup fname = some fd)
    (hne : ats ≠ []) :
    ∃ inst,
      (svStmt (.spawnStmt iv (.ident iv2 fname) args) st).atlas.functions.lookup
          (mangle_name fname ats) = some inst ∧
      inst.is_async = true ∧
      (svStmt (.spawnStmt iv (.ident iv2 fname) args) st).specialization_map.lookup iv =
          some (mangle_name fname ats) ∧
      (svStmt (.spawnStmt iv (.ident iv2 fname) args) st).spawnLog =
          st1.spawnLog ++ [mangle_name fname ats] := by
  obtain ⟨i0, hi0⟩ := add_specialization_mem st1.atlas fname ats fd st1.current_function
  cases hadd : add_specialization st1.atlas fname ats fd st1.current_function with
  | mk mgl at2 =>
    have hm : mangle_name fname ats = mgl := congrArg Prod.fst hadd
    rw [hadd] at hi0
    simp only [svStmt, hsv]
    rw [if_neg hname]
    simp only [hfd]
    rw [if_pos hne]
    simp only [hadd]
    rw [hm] at hi0
    refine ⟨{ i0 with is_async := true, arg_channel_infos := acis }, ?_, rfl, ?_, ?_⟩
    · show (supdate mgl
          (fun i => { i with is_async := true, arg_channel_infos := acis })
          at2.functions).lookup (mangle_name fname ats) = _
      rw [hm, lookup_supdate, if_pos rfl, hi0]
      rfl
    · show (aset iv mgl st1.specialization_map).lookup iv = some (mangle_name fname ats)
      rw [hm]
      exact lookup_aset_self iv mgl st1.specialization_map
    · show st1.spawnLog ++ [mgl] = st1.spawnLog ++ [mangle_name fname ats]
      rw [hm]

/-- Claim C2 (corrected): the analyzer and emitter tie the `async` marker to
`isAsync`, which spawn visits set on the spawned specialization; but the
entry function `main` is emitted `async` whenever ANY emitted function body
contains a spawn statement (the global `uses_async` flag), not when `main`
itself is a spawn target.  Conjuncts: (1) `_generate_function` prefixes a
function with `async ` exactly when its instance has `is_async`; (2) a
generated block sets `uses_async` exactly when the block contains a spawn
statement; (3) after `generate`, the program's `uses_async` — which alone
decides the `#[tokio::main] async fn main()` header — holds exactly when
some function instance's emitted body contains a spawn statement; (4)
visiting `spawn f(args)` (specialization conditions met) records the
mangled specialization with `is_async = true`, maps the call site to the
mangled name, and logs `f`'s specialization as spawn-targeted. -/
theorem async_iff_spawn :
    (∀ (st : St) (func : FnInst) (cg : CG),
       strStarts (generate_function st func cg).1 "async " = func.is_async) ∧
    (∀ (st : St) (ss : Stmts) (cg : CG),
       (cgStmts st ss cg).2.uses_async = (cg.uses_async || stmtsHaveSpawn ss)) ∧
    (∀ st : St,
       (generate st).1.uses_async = (topological_order st.atlas).any (fnBodyHasSpawn st)) ∧
    (∀ (iv iv2 : Iv) (fname : String) (args : Exprs) (st : St) (ats : List BaseType)
       (acis : List (Nat × Nat)) (st1 : St),
       svSpawnArgs args 0 st = (ats, acis, st1) →
       ¬(fname = "print" ∨ fname = "chan") →
       ∀ fd : FnDef, st1.atlas.function_defs.lookup fname = some fd →
       ats ≠ [] →
       ∃ inst,
         (svStmt (.spawnStmt iv (.ident iv2 fname) args) st).atlas.functions.lookup
             (mangle_name fname ats) = some inst ∧
         inst.is_async = true ∧
         (svStmt (.spawnStmt iv (.ident iv2 fname) args) st).specialization_map.lookup iv =
             some (mangle_name fname ats) ∧
         (svStmt (.spawnStmt iv (.ident iv2 fname) args) st).spawnLog =
             st1.spawnLog ++ [mangle_name fname ats]) :=
  ⟨generate_function_async_kw, cgStmts_usesAsync, generate_usesAsync,
   fun iv iv2 fname args st ats acis st1 hsv hname fd hfd hne =>
     svStmt_spawn_async iv iv2 fname args st ats acis st1 hsv hname fd hfd hne⟩

/-- Witness for `async_iff_spawn`: part (4) applied to the spawn statement
of `exSpawn` in the state right before it is visited. -/
theorem async_iff_spawn_witness :
    (¬(("f" : String) = "print" ∨ ("f" : String) = "chan")) ∧
    (svSpawnArgs spawnArgsEx 0 stSpawnMid).2.2.atlas.function_defs.lookup "f" = some fnDefF ∧
    (svSpawnArgs spawnArgsEx 0 stSpawnMid).1 ≠ [] ∧
    ∃ inst,
      (svStmt (.spawnStmt (30, 36) (.ident (31, 31) "f") spawnArgsEx)
          stSpawnMid).atlas.functions.lookup
          (mangle_name "f" (svSpawnArgs spawnArgsEx 0 stSpawnMid).1) = some inst ∧
      inst.is_async = true ∧
      (svStmt (.spawnStmt (30, 36) (.ident (31, 31) "f") spawnArgsEx)
          stSpawnMid).specialization_map.lookup (30, 36) =
          some (mangle_name "f" (svSpawnArgs spawnArgsEx 0 stSpawnMid).1) ∧
      (svStmt (.spawnStmt (30, 36) (.ident (31, 31) "f") spawnArgsEx) stSpawnMid).spawnLog =
          (svSpawnArgs spawnArgsEx 0 stSpawnMid).2.2.spawnLog ++
            [mangle_name "f" (svSpawnArgs spawnArgsEx 0 stSpawnMid).1] :=
  ⟨by decide, by decide, by decide,
   async_iff_spawn.2.2.2 (30, 36) (31, 31) "f" spawnArgsEx stSpawnMid
     (svSpawnArgs spawnArgsEx 0 stSpawnMid).1
     (svSpawnArgs spawnArgsEx 0 stSpawnMid).2.1
     (svSpawnArgs spawnArgsEx 0 stSpawnMid).2.2 rfl (by decide) fnDefF (by decide) (by decide)⟩

/-- Counterexample to claim C2 as stated: compiling `exSpawn`
(`fn f(a) {}` and `main { spawn f(1) }`) emits `main` with the `async`
marker (`#[tokio::main] async fn main()`) although `main` is not the
target of any spawn statement: its instance has `is_async = false` and the
only spawn-targeted specialization is `f_i64` (logged once per resolution
pass of `main`: the discovery sweep and the topological re-resolution). -/
theorem async_iff_spawn_cex :
    (compileProgram exSpawn 3).toOption.map
        (fun r => ((r.1.atlas.functions.lookup "main").map FnInst.is_async,
                   r.1.spawnLog,
                   hasSub "async fn main()".data r.2.2.2.data)) =
      some (some false, ["f_i64", "f_i64"], true) := by decide

/-! ### Claim C10: `topological_order` -/

theorem lookup_isSome_iff (k : String) (l : List (String × α)) :
    (l.lookup k).isSome = true ↔ k ∈ l.map Prod.fst := by
  induction l with
  | nil => simp [List.lookup]
  | cons p rest ih =>
    obtain ⟨k2, v2⟩ := p
    rw [lookup_cons]
    by_cases h : k = k2
    · simp [h]
    · simp [h, ih]

theorem length_filter_mono {p q : String → Bool} (l : List String)
    (h : ∀ x, p x = true → q x = true) :
    (l.filter p).length ≤ (l.filter q).length := by
  induction l with
  | nil => exact Nat.le_refl 0
  | cons x xs ih =>
    simp only [List.filter_cons]
    by_cases hp : p x = true
    · rw [if_pos hp, if_pos (h x hp)]
      simpa using ih
    · rw [if_neg hp]
      by_cases hq : q x = true
      · rw [if_pos hq]
        exact Nat.le_succ_of_le ih
      · rw [if_neg hq]
        exact ih

theorem length_filter_lt {p q : String → Bool} (l : List String)
    (h : ∀ x, p x = true → q x = true) (a : String) (ha : a ∈ l)
    (hpa : p a = false) (hqa : q a = true) :
    (l.filter p).length < (l.filter q).length := by
  induction l with
  | nil => cases ha
  | cons x xs ih =>
    simp only [List.filter_cons]
    rcases List.mem_cons.mp ha with hax | hax
    · subst hax
      rw [if_neg (by simp [hpa]), if_pos hqa]
      simpa using Nat.lt_succ_of_le (length_filter_mono xs h)
    · by_cases hp : p x = true
      · rw [if_pos hp, if_pos (h x hp)]
        simpa using ih hax
      · rw [if_neg hp]
        by_cases hq : q x = true
        · rw [if_pos hq]
          exact Nat.lt_succ_of_lt (ih hax)
        · rw [if_neg hq]
          exact ih hax

theorem step_refl (s : TopoSt) : Step s s :=
  ⟨fun _ hx => hx, ⟨[], (List.append_nil _).symm⟩, fun _ hx => Or.inl hx, fun _ hx => Or.inl hx⟩

theorem step_trans {s t u : TopoSt} (h1 : Step s t) (h2 : Step t u) : Step s u := by
  obtain ⟨m1, ⟨d1, e1⟩, n1, w1⟩ := h1
  obtain ⟨m2, ⟨d2, e2⟩, n2, w2⟩ := h2
  refine ⟨fun x hx => m2 x (m1 x hx), ⟨d1 ++ d2, by rw [e2, e1, List.append_assoc]⟩, ?_, ?_⟩
  · intro x hx
    rcases n2 x hx with h | h
    · rcases n1 x h with h' | h'
      · exact Or.inl h'
      · exact Or.inr (by rw [e2]; exact List.mem_append_left _ h')
    · exact Or.inr h
  · intro x hx
    rcases w2 x hx with h | h
    · exact w1 x h
    · exact Or.inr (fun hc => h (m1 x hc))

theorem Step.result_mono {s t : TopoSt} (h : Step s t) {x : String} (hx : x ∈ s.result) :
    x ∈ t.result := by
  obtain ⟨d, hd⟩ := h.2.1
  rw [hd]
  exact List.mem_append_left _ hx

theorem Step.grey_of {s t : TopoSt} (h : Step s t) {x : String}
    (hv : x ∈ t.visited) (hr : x ∉ t.result) : x ∈ s.visited ∧ x ∉ s.result := by
  rcases h.2.2.1 x hv with h1 | h1
  · exact ⟨h1, fun hc => hr (h.result_mono hc)⟩
  · exact absurd h1 hr

theorem unvis_le_of_step (a : Atlas) {s t : TopoSt} (h : Step s t) :
    unvis a t ≤ unvis a s := by
  apply length_filter_mono
  intro x hx
  simp only [decide_eq_true_eq] at hx ⊢
  exact fun hc => hx (h.1 x hc)

theorem appearsBefore_append (l l2 : List String) {b x : String}
    (h : appearsBefore l b x) : appearsBefore (l ++ l2) b x := by
  obtain ⟨u, v, he, hb⟩ := h
  exact ⟨u, v ++ l2, by rw [he]; simp [List.append_assoc], hb⟩

theorem topoDfs_spec (a : Atlas) : ∀ (fuel : Nat) (name : String) (s : TopoSt),
    unvis a s < fuel → TInv a s →
    (∀ g ∈ s.visited, g ∉ s.result → Reaches a g name) →
    Step s (topoDfs a fuel name s) ∧ TInv a (topoDfs a fuel name s) ∧
      ((a.functions.lookup name).isSome = true → name ∈ (topoDfs a fuel name s).visited) := by
  intro fuel
  induction fuel with
  | zero => intro name s hfuel _ _; exact absurd hfuel (Nat.not_lt_zero _)
  | succ m ih =>
    intro name s hfuel hinv hG
    by_cases hv : name ∈ s.visited
    · rw [show topoDfs a (m + 1) name s = s from by simp [topoDfs, hv]]
      exact ⟨step_refl s, hinv, fun _ => hv⟩
    by_cases hf : (a.functions.lookup name).isSome = true
    case neg =>
      have hnone : (a.functions.lookup name).isNone = true := by
        cases hx : a.functions.lookup name with
        | none => rfl
        | some v => exact absurd (by simp [hx]) hf
      rw [show topoDfs a (m + 1) name s = s from by simp [topoDfs, hv, hnone]]
      exact ⟨step_refl s, hinv, fun hs => absurd hs hf⟩
    case pos =>
    have hnone : (a.functions.lookup name).isNone = false := by
      cases hx : a.functions.lookup name with
      | none => rw [hx] at hf; simp at hf
      | some v => rfl
    have heq : topoDfs a (m + 1) name s =
        { (((a.calls.lookup name).getD []).foldl
             (fun t c => if (a.functions.lookup c).isSome then topoDfs a m c t else t)
             { s with visited := name :: s.visited }) with
          result := (((a.calls.lookup name).getD []).foldl
             (fun t c => if (a.functions.lookup c).isSome then topoDfs a m c t else t)
             { s with visited := name :: s.visited }).result ++ [name] } := by
      simp [topoDfs, hv, hnone]
    have hks : name ∈ a.functions.map Prod.fst := (lookup_isSome_iff name a.functions).mp hf
    have hnr0 : name ∉ s.result := fun hc => hv (hinv.2.1 name hc)
    have hu1 : unvis a { s with visited := name :: s.visited } < unvis a s := by
      apply length_filter_lt _ _ name hks
      · exact decide_eq_false (fun hc => hc (List.mem_cons_self name s.visited))
      · exact decide_eq_true hv
      · intro x hx
        rw [decide_eq_true_eq] at hx
        rw [decide_eq_true_eq]
        intro hc
        exact hx (List.mem_cons_of_mem name hc)
    have hinv1 : TInv a { s with visited := name :: s.visited } := by
      refine ⟨hinv.1, ?_, ?_, hinv.2.2.2⟩
      · intro x hx
        exact List.mem_cons_of_mem name (hinv.2.1 x hx)
      · intro x hx
        rcases List.mem_cons.mp hx with h | h
        · rw [h]; exact hf
        · exact hinv.2.2.1 x h
    -- the callee loop, generalized over a suffix of the callee list
    have fold : ∀ (cs : List String), (∀ c ∈ cs, c ∈ (a.calls.lookup name).getD []) →
        ∀ t : TopoSt, unvis a t < m → TInv a t →
        Step { s with visited := name :: s.visited } t →
        Step t (cs.foldl
            (fun t c => if (a.functions.lookup c).isSome then topoDfs a m c t else t) t) ∧
          TInv a (cs.foldl
            (fun t c => if (a.functions.lookup c).isSome then topoDfs a m c t else t) t) ∧
          (∀ c ∈ cs, (a.functions.lookup c).isSome = true →
            c ∈ (cs.foldl
              (fun t c => if (a.functions.lookup c).isSome then topoDfs a m c t else t)
              t).visited) := by
      intro cs
      induction cs with
      | nil =>
        intro _ t _ hinvt _
        exact ⟨step_refl t, hinvt, by simp⟩
      | cons c cs ihc =>
        intro hsub t hut hinvt hstep
        by_cases hc : (a.functions.lookup c).isSome = true
        · have hGc : ∀ g ∈ t.visited, g ∉ t.result → Reaches a g c := by
            intro g hgv hgr
            have hedge : callEdge a name c := ⟨hf, hc, hsub c (List.mem_cons_self c cs)⟩
            have hst := hstep.grey_of hgv hgr
            rcases List.mem_cons.mp hst.1 with hgname | hgold
            · rw [hgname]
              exact Relation.ReflTransGen.single hedge
            · exact Relation.ReflTransGen.tail (hG g hgold hst.2) hedge
          obtain ⟨hstep2, hinv2, hcvis⟩ := ih c t hut hinvt hGc
          have hu2 : unvis a (topoDfs a m c t) < m :=
            Nat.lt_of_le_of_lt (unvis_le_of_step a hstep2) hut
          obtain ⟨hstep3, hinv3, hvis3⟩ :=
            ihc (fun x hx => hsub x (List.mem_cons_of_mem c hx)) (topoDfs a m c t) hu2 hinv2
              (step_trans hstep hstep2)
          rw [show (c :: cs).foldl
              (fun t c => if (a.functions.lookup c).isSome then topoDfs a m c t else t) t =
            cs.foldl
              (fun t c => if (a.functions.lookup c).isSome then topoDfs a m c t else t)
              (topoDfs a m c t) from by rw [List.foldl_cons, if_pos hc]]
          refine ⟨step_trans hstep2 hstep3, hinv3, ?_⟩
          intro c' hc' hsc'
          rcases List.mem_cons.mp hc' with h | h
          · rw [h]
            exact hstep3.1 c (hcvis hc)
          · exact hvis3 c' h hsc'
        · rw [show (c :: cs).foldl
              (fun t c => if (a.functions.lookup c).isSome then topoDfs a m c t else t) t =
            cs.foldl
              (fun t c => if (a.functions.lookup c).isSome then topoDfs a m c t else t) t from
            by rw [List.foldl_cons, if_neg hc]]
          obtain ⟨hstep3, hinv3, hvis3⟩ :=
            ihc (fun x hx => hsub x (List.mem_cons_of_mem c hx)) t hut hinvt hstep
          refine ⟨hstep3, hinv3, ?_⟩
          intro c' hc' hsc'
          rcases List.mem_cons.mp hc' with h | h
          · rw [h] at hsc'
            exact absurd hsc' hc
          · exact hvis3 c' h hsc'
    obtain ⟨hstepF, hinvF, hvisF⟩ :=
      fold ((a.calls.lookup name).getD []) (fun _ hc => hc)
        { s with visited := name :: s.visited }
        (Nat.lt_of_lt_of_le hu1 (Nat.lt_succ_iff.mp hfuel)) hinv1
        (step_refl { s with visited := name :: s.visited })
    rw [heq]
    have hnamev : name ∈ (((a.calls.lookup name).getD []).foldl
        (fun t c => if (a.functions.lookup c).isSome then topoDfs a m c t else t)
        { s with visited := name :: s.visited }).visited :=
      hstepF.1 name (List.mem_cons_self name s.visited)
    have hnotin : name ∉ (((a.calls.lookup name).getD []).foldl
        (fun t c => if (a.functions.lookup c).isSome then topoDfs a m c t else t)
        { s with visited := name :: s.visited }).result := by
      intro hc
      rcases hstepF.2.2.2 name hc with h | h
      · exact hnr0 h
      · exact h (List.mem_cons_self name s.visited)
    refine ⟨⟨?_, ?_, ?_, ?_⟩, ⟨?_, ?_, ?_, ?_⟩, fun _ => hnamev⟩
    · intro x hx
      exact hstepF.1 x (List.mem_cons_of_mem name hx)
    · obtain ⟨d, hd⟩ := hstepF.2.1
      exact ⟨d ++ [name], by rw [hd]; simp [List.append_assoc]⟩
    · intro x hx
      rcases hstepF.2.2.1 x hx with h | h
      · rcases List.mem_cons.mp h with h' | h'
        · exact Or.inr (by rw [h']; exact List.mem_append_right _ (List.mem_cons_self _ _))
        · exact Or.inl h'
      · exact Or.inr (List.mem_append_left _ h)
    · intro x hx
      rcases List.mem_append.mp hx with h | h
      · rcases hstepF.2.2.2 x h with h' | h'
        · exact Or.inl h'
        · exact Or.inr (fun hc => h' (List.mem_cons_of_mem name hc))
      · rw [show x = name from by simpa using h]
        exact Or.inr hv
    · rw [List.nodup_append]
      exact ⟨hinvF.1, List.nodup_singleton name, by simpa [List.disjoint_singleton] using hnotin⟩
    · intro x hx
      rcases List.mem_append.mp hx with h | h
      · exact hinvF.2.1 x h
      · rw [show x = name from by simpa using h]
        exact hnamev
    · exact hinvF.2.2.1
    · intro A B hedge hnr hA
      rcases List.mem_append.mp hA with hA2 | hA1
      · exact appearsBefore_append _ _ (hinvF.2.2.2 A B hedge hnr hA2)
      · rw [show A = name from by simpa using hA1] at hedge hnr ⊢
        have hBv := hvisF B hedge.2.2 hedge.2.1
        rcases hstepF.2.2.1 B hBv with hB1 | hB2
        · rcases List.mem_cons.mp hB1 with hBn | hBo
          · rw [hBn] at hnr
            exact absurd Relation.ReflTransGen.refl hnr
          · by_cases hBr : B ∈ s.result
            · obtain ⟨d, hd⟩ := hstepF.2.1
              refine ⟨_, [], rfl, ?_⟩
              rw [hd]
              exact List.mem_append_left _ hBr
            · exact absurd (hG B hBo hBr) hnr
        · exact ⟨_, [], rfl, hB2⟩

theorem topo_fold_spec (a : Atlas) : ∀ (ks : List String) (s : TopoSt),
    TInv a s → (∀ x ∈ s.visited, x ∈ s.result) →
    TInv a (ks.foldl (fun s k => topoDfs a ((a.functions.map Prod.fst).length + 1) k s) s) ∧
    (∀ x ∈ (ks.foldl (fun s k =>
        topoDfs a ((a.functions.map Prod.fst).length + 1) k s) s).visited,
      x ∈ (ks.foldl (fun s k =>
        topoDfs a ((a.functions.map Prod.fst).length + 1) k s) s).result) ∧
    Step s (ks.foldl (fun s k => topoDfs a ((a.functions.map Prod.fst).length + 1) k s) s) ∧
    (∀ k ∈ ks, (a.functions.lookup k).isSome = true →
      k ∈ (ks.foldl (fun s k =>
        topoDfs a ((a.functions.map Prod.fst).length + 1) k s) s).result) := by
  intro ks
  induction ks with
  | nil =>
    intro s hinv hng
    exact ⟨hinv, hng, step_refl s, by simp⟩
  | cons k ks ihk =>
    intro s hinv hng
    have hfuel : unvis a s < (a.functions.map Prod.fst).length + 1 :=
      Nat.lt_succ_of_le (List.length_filter_le _ _)
    have hG : ∀ g ∈ s.visited, g ∉ s.result → Reaches a g k :=
      fun g hgv hgr => absurd (hng g hgv) hgr
    obtain ⟨hstep, hinv2, hvis⟩ :=
      topoDfs_spec a ((a.functions.map Prod.fst).length + 1) k s hfuel hinv hG
    have hng2 : ∀ x ∈ (topoDfs a ((a.functions.map Prod.fst).length + 1) k s).visited,
        x ∈ (topoDfs a ((a.functions.map Prod.fst).length + 1) k s).result := by
      intro x hx
      rcases hstep.2.2.1 x hx with h | h
      · exact hstep.result_mono (hng x h)
      · exact h
    obtain ⟨hinv3, hng3, hstep3, hks3⟩ :=
      ihk (topoDfs a ((a.functions.map Prod.fst).length + 1) k s) hinv2 hng2
    rw [List.foldl_cons]
    refine ⟨hinv3, hng3, step_trans hstep hstep3, ?_⟩
    intro k' hk' hsk'
    rcases List.mem_cons.mp hk' with h | h
    · rw [h]
      exact hstep3.result_mono (hng2 k (hvis (h ▸ hsk')))
    · exact hks3 k' h hsk'

/-- Claim C10: for every Atlas, `topological_order` returns a list holding
each mangled name of `atlas.functions` exactly once and nothing else —
cycles in `calls` and edges to non-specialized names included — and for
every acyclic pair (specialization `A`'s calls set contains specialization
`B`, and `B` does not reach `A` along call edges, so the pair lies on no
cycle), `B` appears before `A` in the returned list. -/
theorem topological_order_spec (a : Atlas) :
    (topological_order a).Nodup ∧
    (∀ n, n ∈ topological_order a ↔ (a.functions.lookup n).isSome = true) ∧
    (∀ A B, callEdge a A B → ¬ Reaches a B A →
      appearsBefore (topological_order a) B A) := by
  have hinit : TInv a {} :=
    ⟨List.nodup_nil, by simp [TopoSt.result, TopoSt.visited], by simp, by simp⟩
  obtain ⟨hinv, hng, hstep, hks⟩ :=
    topo_fold_spec a (a.functions.map Prod.fst) {} hinit (by simp)
  have hout : topological_order a = ((a.functions.map Prod.fst).foldl
      (fun s k => topoDfs a ((a.functions.map Prod.fst).length + 1) k s) {}).result := rfl
  refine ⟨hout ▸ hinv.1, ?_, ?_⟩
  · intro n
    constructor
    · intro hn
      exact hinv.2.2.1 n (hinv.2.1 n (hout ▸ hn))
    · intro hn
      rw [hout]
      exact hks n ((lookup_isSome_iff n a.functions).mp hn) hn
  · intro A B hedge hnr
    have hA : A ∈ topological_order a := by
      rw [hout]
      exact hks A ((lookup_isSome_iff A a.functions).mp hedge.1) hedge.1
    exact hout ▸ hinv.2.2.2 A B hedge hnr (hout ▸ hA)

/-- Witness for `topological_order_spec` on `atlasToy` (`main` calls `f`,
`f` calls nothing, so the pair is acyclic): `f` is ordered before `main`. -/
theorem topological_order_spec_witness :
    callEdge atlasToy "main" "f" ∧ ¬ Reaches atlasToy "f" "main" ∧
    appearsBefore (topological_order atlasToy) "f" "main" := by
  have hedge : callEdge atlasToy "main" "f" := ⟨by decide, by decide, by decide⟩
  have hnr : ¬ Reaches atlasToy "f" "main" := by
    intro h
    rcases Relation.ReflTransGen.cases_head h with heq | ⟨c, hc, _⟩
    · exact absurd heq (by decide)
    · have hmem : c ∈ ((atlasToy.calls.lookup "f").getD []) := hc.2.2
      rw [show ((atlasToy.calls.lookup "f").getD []) = ([] : List String) from by decide]
        at hmem
      exact absurd hmem (List.not_mem_nil c)
  exact ⟨hedge, hnr, (topological_order_spec atlasToy).2.2 "main" "f" hedge hnr⟩

end Zinc
